import Mathlib

/-!
# btcpay payment-request client: a verification development

A shallow embedding of `payment-request.go` (package `btcpay`):

* the data model `PaymentRequestRequest` / `PaymentRequest`;
* `SetExpiryDays`, over an explicit clock reading;
* `Store.CreatePaymentRequest` and `Store.GetPaymentRequest`, over an explicit
  transport, returning Go's `(result, error)` pair together with the list of
  transport calls that were made.

The Go standard library that the file calls (`encoding/json`, `strconv`,
`fmt`, `time`) is embedded as far as the two operations exercise it.
Go strings and byte slices are sequences of Unicode scalar values here, i.e.
well-formed UTF-8 text.
-/

namespace btcpay

/-! ## Data model -/

/-- Go `float64`: an IEEE-754 binary64 value, given by its bit pattern
(`math.Float64bits`). -/
structure Float64 where
  bits : Fin 18446744073709551616
deriving DecidableEq

/-- Go `type PaymentRequestStatus string`. -/
abbrev PaymentRequestStatus := String

def PaymentRequestPending : PaymentRequestStatus := "Pending"

def PaymentRequestCompleted : String := "Completed"

def PaymentRequestExpired : String := "Expired"

/-- Go `PaymentRequestRequest`. Mandatory fields are amount, currency and title. -/
structure PaymentRequestRequest where
  AllowCustomPaymentAmounts : Bool
  Amount : Float64
  Currency : String
  CustomCSSLink : String
  Description : String
  Email : String
  EmbeddedCSS : String
  ExpiryDate : String
  Title : String
deriving DecidableEq

/-- Go `PaymentRequest`: the embedded `PaymentRequestRequest` plus the fields the
service assigns. -/
structure PaymentRequest extends PaymentRequestRequest where
  Archived : Bool
  Created : String
  ID : String
  Status : PaymentRequestStatus
deriving DecidableEq

/-- The value `float64(0)`. -/
def Float64.zero : Float64 := ⟨0⟩

/-- Go `PaymentRequestRequest{}`. -/
def PaymentRequestRequest.zero : PaymentRequestRequest :=
  { AllowCustomPaymentAmounts := false, Amount := Float64.zero, Currency := "",
    CustomCSSLink := "", Description := "", Email := "", EmbeddedCSS := "",
    ExpiryDate := "", Title := "" }

/-- Go `PaymentRequest{}`, the value `&PaymentRequest{}` points to. -/
def PaymentRequest.zero : PaymentRequest :=
  { toPaymentRequestRequest := PaymentRequestRequest.zero,
    Archived := false, Created := "", ID := "", Status := "" }

/-! ## Errors -/

/-- Modelled from the spec: the four sentinels `ErrUnauthenticated`,
`ErrUnauthorized`, `ErrBadRequest`, `ErrNotFound` are package-level error
variables declared outside `payment-request.go`; they are distinct values.
The type collects the Go `error` values that can reach a caller of the two
operations.
`Errorf` is the value of `fmt.Errorf` (by its message), the three `json`
constructors are `*json.SyntaxError`, `*json.UnmarshalTypeError` (by its
`Value` field) and `*json.UnsupportedValueError` (by its `Str` field), and
`External` stands for any error produced by the transport or by reading the
response body. -/
inductive Error
  | ErrUnauthenticated
  | ErrUnauthorized
  | ErrBadRequest
  | ErrNotFound
  | Errorf (msg : String)
  | SyntaxError
  | UnmarshalTypeError (value : String)
  | UnsupportedValueError (str : String)
  | External (tag : Nat)
deriving DecidableEq

/-! ## `strconv`: decimal rendering of integers -/

/-- Decimal digits of a natural number, most significant first (`fuel` bounds
the number of digits). -/
def digitsAux : Nat → Nat → List Char → List Char
  | 0, _, acc => acc
  | fuel + 1, n, acc =>
    if n < 10 then Char.ofNat (48 + n) :: acc
    else digitsAux fuel (n / 10) (Char.ofNat (48 + n % 10) :: acc)

/-- Go `strconv.Itoa` on a non-negative integer. -/
def natDigits (n : Nat) : List Char := digitsAux (n + 1) n []

/-- Go `strconv.Itoa` / the `%d` verb. -/
def Itoa : Int → String
  | Int.ofNat n => ⟨natDigits n⟩
  | Int.negSucc n => ⟨'-' :: natDigits (n + 1)⟩

/-! ## `strconv`: float64 parsing and shortest formatting -/

/-- The sign bit. -/
def Float64.neg (f : Float64) : Bool := decide (2 ^ 63 ≤ f.bits.val)

/-- The 11-bit biased exponent field. -/
def Float64.expField (f : Float64) : Nat := f.bits.val / 2 ^ 52 % 2 ^ 11

/-- The 52-bit fraction field. -/
def Float64.frac (f : Float64) : Nat := f.bits.val % 2 ^ 52

/-- Go `math.IsNaN`. -/
def Float64.IsNaN (f : Float64) : Bool := f.expField == 2047 && f.frac != 0

/-- Go `math.IsInf(f, 0)`. -/
def Float64.IsInf (f : Float64) : Bool := f.expField == 2047 && f.frac == 0

/-- The integer significand of a finite value: `|f| = mant * 2 ^ exp2`. -/
def Float64.mant (f : Float64) : Nat :=
  if f.expField = 0 then f.frac else f.frac + 2 ^ 52

/-- The binary exponent of the unit in the last place of a finite value. -/
def Float64.exp2 (f : Float64) : Int :=
  if f.expField = 0 then -1074 else (f.expField : Int) - 1075

/-- Pack sign, biased exponent field and fraction into a `Float64`. -/
def Float64.pack (neg : Bool) (e frac : Nat) : Float64 :=
  ⟨Fin.ofNat ((if neg then 2 ^ 63 else 0) + (e % 2 ^ 11) * 2 ^ 52 + frac % 2 ^ 52)⟩

/-- Is `num / den ≥ 2 ^ b`? -/
def geTwoPow (num den : Nat) (b : Int) : Bool :=
  match b with
  | Int.ofNat k => decide (den * 2 ^ k ≤ num)
  | Int.negSucc k => decide (den ≤ num * 2 ^ (k + 1))

/-- Position of the highest set bit (`fuel` bounds the number of bits). -/
def log2Aux : Nat → Nat → Nat
  | 0, _ => 0
  | fuel + 1, n => if n < 2 then 0 else log2Aux fuel (n / 2) + 1

/-- The value `⌊log₂ (num / den)⌋` for positive `num`, `den`. -/
def floorLog2 (num den : Nat) : Int :=
  let b : Int := (log2Aux num num : Int) - (log2Aux den den : Int)
  if geTwoPow num den (b + 1) then b + 1 else if geTwoPow num den b then b else b - 1

/-- Correctly rounded (nearest, ties to even) conversion of the positive
rational `num / den` to binary64; `none` when the result overflows. -/
def roundToFloat64 (neg : Bool) (num den : Nat) : Option Float64 :=
  if num = 0 then some (Float64.pack neg 0 0)
  else
    let t := floorLog2 num den
    let e : Int := max (t - 52) (-1074)
    let n1 : Nat := if 0 ≤ e then num else num * 2 ^ (-e).toNat
    let d1 : Nat := if 0 ≤ e then den * 2 ^ e.toNat else den
    let q := n1 / d1
    let r := n1 % d1
    let m := if d1 < 2 * r ∨ (2 * r = d1 ∧ q % 2 = 1) then q + 1 else q
    let m1 := if m = 2 ^ 53 then 2 ^ 52 else m
    let e1 : Int := if m = 2 ^ 53 then e + 1 else e
    if m1 < 2 ^ 52 then some (Float64.pack neg 0 m1)
    else if 971 < e1 then none
    else some (Float64.pack neg (e1 + 1075).toNat (m1 - 2 ^ 52))

/-- Is the character an ASCII decimal digit? -/
def isDigit (c : Char) : Bool := decide (48 ≤ c.toNat ∧ c.toNat ≤ 57)

/-- Value of a run of decimal digits. -/
def digitsValue (ds : List Char) : Nat :=
  ds.foldl (fun acc c => acc * 10 + (c.toNat - 48)) 0

/-- Longest prefix of decimal digits, and what follows it. -/
def takeDigits : List Char → List Char × List Char
  | [] => ([], [])
  | c :: cs =>
    if isDigit c then ((takeDigits cs).1.cons c, (takeDigits cs).2) else ([], c :: cs)

/-- Go `strconv.ParseFloat(s, 64)` on a JSON number literal (the only input the
decoder passes to it): `none` is the range error of an overflowing literal. -/
def ParseFloat (lit : List Char) : Option Float64 :=
  let neg := lit.head? = some '-'
  let s1 := if neg then lit.tail else lit
  let ip := takeDigits s1
  let fp : List Char × List Char :=
    match ip.2 with
    | '.' :: r => takeDigits r
    | r => ([], r)
  let ex : Int :=
    match fp.2 with
    | _ :: '-' :: r => - (digitsValue (takeDigits r).1 : Int)
    | _ :: '+' :: r => (digitsValue (takeDigits r).1 : Int)
    | _ :: r => (digitsValue (takeDigits r).1 : Int)
    | [] => 0
  let n := digitsValue (ip.1 ++ fp.1)
  let e10 : Int := ex - (fp.1.length : Int)
  if 0 ≤ e10 then roundToFloat64 neg (n * 10 ^ e10.toNat) 1
  else roundToFloat64 neg n (10 ^ (-e10).toNat)

/-- Is `num / den ≥ 10 ^ p`? -/
def geTenPow (num den : Nat) (p : Int) : Bool :=
  match p with
  | Int.ofNat k => decide (den * 10 ^ k ≤ num)
  | Int.negSucc k => decide (den ≤ num * 10 ^ (k + 1))

/-- The value `⌊log₁₀ (num / den)⌋` for positive `num`, `den`. -/
def floorLog10 (num den : Nat) : Int :=
  let p0 : Int := floorLog2 num den * 30103 / 100000
  if geTenPow num den (p0 + 1) then p0 + 1 else if geTenPow num den p0 then p0 else p0 - 1

/-- The binary64 value nearest to `d * 10 ^ (-s)`, with the given sign. -/
def decimalToFloat64 (neg : Bool) (d : Nat) (s : Int) : Option Float64 :=
  if 0 ≤ s then roundToFloat64 neg d (10 ^ s.toNat)
  else roundToFloat64 neg (d * 10 ^ (-s).toNat) 1

/-- Drop trailing zero digits of `d * 10 ^ (-s)`. -/
def trimZeros : Nat → Nat → Int → Nat × Int
  | 0, d, s => (d, s)
  | fuel + 1, d, s => if d ≠ 0 ∧ d % 10 = 0 then trimZeros fuel (d / 10) (s - 1) else (d, s)

/-- The exact decimal expansion `d * 10 ^ (-s)` of a finite value. -/
def exactDecimal (f : Float64) : Nat × Int :=
  if 0 ≤ f.exp2 then (f.mant * 2 ^ f.exp2.toNat, 0)
  else (f.mant * 5 ^ (-f.exp2).toNat, -f.exp2)

/-- Of two neighbouring decimals `lo`, `hi` of the value of `f`, the one that
converts back to `f`, the nearer one when both do; `rest` when neither does. -/
def pickDecimal (f : Float64) (lo hi : Nat × Int) (loNearer : Bool) (rest : Nat × Int) :
    Nat × Int :=
  if decimalToFloat64 f.neg lo.1 lo.2 = some f then
    if decimalToFloat64 f.neg hi.1 hi.2 = some f then (if loNearer then lo else hi) else lo
  else if decimalToFloat64 f.neg hi.1 hi.2 = some f then hi
  else rest

/-- Shortest decimal `d * 10 ^ (-s)` that converts back to `f`, searched from
`n` significant digits upwards; of the two `n`-digit neighbours of the value,
the nearer one that converts back is taken. `num / den` is `|f|` and
`p = ⌊log₁₀ |f|⌋`. Seventeen digits always suffice for a binary64 value; the
search ends with the exact expansion should they not. -/
def shortestFrom (f : Float64) (num den : Nat) (p : Int) : Nat → Nat → Nat × Int
  | 0, _ => exactDecimal f
  | fuel + 1, n =>
    let s : Int := (n : Int) - 1 - p
    let a := if 0 ≤ s then num * 10 ^ s.toNat else num
    let b := if 0 ≤ s then den else den * 10 ^ (-s).toNat
    pickDecimal f (trimZeros 20 (a / b) s) (trimZeros 20 (a / b + 1) s)
      (decide (2 * (a % b) < b ∨ (2 * (a % b) = b ∧ a / b % 2 = 0)))
      (shortestFrom f num den p fuel (n + 1))

/-- The digits and decimal point position (`0.d₁d₂… * 10 ^ dp`) that Go's
shortest formatting (`strconv.FormatFloat(f, fmt, -1, 64)`) uses for a finite
non-zero `f`. -/
def shortestDecimal (f : Float64) : List Char × Int :=
  let num := if 0 ≤ f.exp2 then f.mant * 2 ^ f.exp2.toNat else f.mant
  let den := if 0 ≤ f.exp2 then 1 else 2 ^ (-f.exp2).toNat
  let t := shortestFrom f num den (floorLog10 num den) 17 1
  (natDigits t.1, ((natDigits t.1).length : Int) - t.2)

/-- Go `strconv` layout `%f` of shortest digits. -/
def fmtF (neg : Bool) (ds : List Char) (dp : Int) : List Char :=
  (if neg then ['-'] else []) ++
  (if 0 < dp then ds.take dp.toNat ++ List.replicate (dp.toNat - ds.length) '0' else ['0']) ++
  (if dp < (ds.length : Int) then
    '.' :: (List.replicate (-dp).toNat '0' ++ ds.drop dp.toNat)
   else [])

/-- Go `strconv` layout `%e` of shortest digits. -/
def fmtE (neg : Bool) (ds : List Char) (dp : Int) : List Char :=
  let exp : Int := dp - 1
  (if neg then ['-'] else []) ++
  [ds.headD '0'] ++
  (if 1 < ds.length then '.' :: ds.tail else []) ++
  ['e', if exp < 0 then '-' else '+'] ++
  (if exp.natAbs < 10 then '0' :: natDigits exp.natAbs else natDigits exp.natAbs)

/-- The exponent clean-up of `encoding/json` (`e-09` becomes `e-9`). -/
def cleanExp (b : List Char) : List Char :=
  match b.reverse with
  | d :: '0' :: '-' :: 'e' :: r => (d :: '-' :: 'e' :: r).reverse
  | _ => b

/-- Bits of the constant `1e-6`. -/
def bits1em6 : Nat := 4517329193108106637

/-- Bits of the constant `1e21`. -/
def bits1e21 : Nat := 4921056587992461136

/-- The text `encoding/json` writes for a finite float64 (`floatEncoder`). -/
def encodeFloat (f : Float64) : List Char :=
  let abs := f.bits.val % 2 ^ 63
  if abs = 0 then fmtF f.neg [] 0
  else
    let d := shortestDecimal f
    if abs < bits1em6 ∨ bits1e21 ≤ abs then cleanExp (fmtE f.neg d.1 d.2)
    else fmtF f.neg d.1 d.2

/-! ## `encoding/json`: reading -/

/-- A JSON text, as `encoding/json` reads it. A number keeps its literal (the
decoder hands the literal to `strconv.ParseFloat`), a string its unquoted
contents. -/
inductive JSON
  | null
  | bool (b : Bool)
  | number (lit : String)
  | string (s : String)
  | array (elems : List JSON)
  | object (members : List (String × JSON))

/-- Outcome of scanning a piece of JSON text with a recursion budget. -/
inductive Scan (α : Type)
  | ok (a : α)
  | invalid
  | outOfFuel

/-- Go `isSpace` of the JSON scanner. -/
def isSpace (c : Char) : Bool := c = ' ' || c = '\t' || c = '\r' || c = '\n'

/-- Skip JSON white space. -/
def skipSpace : List Char → List Char
  | [] => []
  | c :: cs => if isSpace c then skipSpace cs else c :: cs

/-- Value of a hexadecimal digit. -/
def hexValue (c : Char) : Option Nat :=
  if 48 ≤ c.toNat ∧ c.toNat ≤ 57 then some (c.toNat - 48)
  else if 97 ≤ c.toNat ∧ c.toNat ≤ 102 then some (c.toNat - 87)
  else if 65 ≤ c.toNat ∧ c.toNat ≤ 70 then some (c.toNat - 55)
  else none

/-- Go `getu4`: the value of the four hexadecimal digits of a `\u` escape. -/
def getu4 (a b c d : Char) : Option Nat :=
  match hexValue a, hexValue b, hexValue c, hexValue d with
  | some x, some y, some z, some w => some (((x * 16 + y) * 16 + z) * 16 + w)
  | _, _, _, _ => none

/-- Go `utf16.IsSurrogate`. -/
def isSurrogate (r : Nat) : Bool := decide (55296 ≤ r ∧ r < 57344)

/-- Go `utf16.DecodeRune`: the code point of a surrogate pair, `U+FFFD` when
the two halves are no pair. -/
def decodeSurrogates (r1 r2 : Nat) : Nat :=
  if 55296 ≤ r1 ∧ r1 < 56320 ∧ 56320 ≤ r2 ∧ r2 < 57344 then
    (r1 - 55296) * 1024 + (r2 - 56320) + 65536
  else 65533

/-- The character of a single-letter escape `\c`. -/
def simpleEscape (c : Char) : Option Char :=
  if c = '"' then some '"'
  else if c = '\\' then some '\\'
  else if c = '/' then some '/'
  else if c = 'b' then some (Char.ofNat 8)
  else if c = 'f' then some (Char.ofNat 12)
  else if c = 'n' then some '\n'
  else if c = 'r' then some '\r'
  else if c = 't' then some '\t'
  else none

/-- Put a decoded character in front of the rest of a string literal. -/
def pushChar (c : Char) : Option (List Char × List Char) → Option (List Char × List Char)
  | some (s, rest) => some (c :: s, rest)
  | none => none

/-- Emit `U+FFFD` for a high surrogate that found no partner. -/
def flushSurrogate (pend : Option Nat) (r : Option (List Char × List Char)) :
    Option (List Char × List Char) :=
  match pend with
  | some _ => pushChar (Char.ofNat 65533) r
  | none => r

/-- A string literal after its opening quote: the scanner's `stateInString…`
together with `unquote`. Gives the unquoted contents and the text after the
closing quote; `none` when the literal is malformed. `pend` is a high
surrogate read from the preceding `\u` escape that still waits for its low
half (Go looks ahead with `getu4` instead). -/
def unquoteFrom : Option Nat → List Char → Option (List Char × List Char)
  | _, [] => none
  | pend, c :: cs =>
    if c = '"' then flushSurrogate pend (some ([], cs))
    else if c = '\\' then
      match cs with
      | [] => none
      | e :: cs1 =>
        if e = 'u' then
          match cs1 with
          | a :: b :: c2 :: d :: cs2 =>
            match getu4 a b c2 d with
            | none => none
            | some rr =>
              match pend with
              | some hi =>
                if decodeSurrogates hi rr ≠ 65533 then
                  pushChar (Char.ofNat (decodeSurrogates hi rr)) (unquoteFrom none cs2)
                else if isSurrogate rr then
                  if rr < 56320 then pushChar (Char.ofNat 65533) (unquoteFrom (some rr) cs2)
                  else
                    pushChar (Char.ofNat 65533)
                      (pushChar (Char.ofNat 65533) (unquoteFrom none cs2))
                else
                  pushChar (Char.ofNat 65533) (pushChar (Char.ofNat rr) (unquoteFrom none cs2))
              | none =>
                if isSurrogate rr then
                  if rr < 56320 then unquoteFrom (some rr) cs2
                  else pushChar (Char.ofNat 65533) (unquoteFrom none cs2)
                else pushChar (Char.ofNat rr) (unquoteFrom none cs2)
          | _ => none
        else
          match simpleEscape e with
          | some ch => flushSurrogate pend (pushChar ch (unquoteFrom none cs1))
          | none => none
    else if c.toNat < 32 then none
    else flushSurrogate pend (pushChar c (unquoteFrom none cs))

/-- A string literal after its opening quote. -/
def unquote (cs : List Char) : Option (List Char × List Char) := unquoteFrom none cs

/-- The exponent part of a number literal, after the digits `acc`. -/
def scanExponent (acc : List Char) : List Char → Option (List Char × List Char)
  | [] => some (acc, [])
  | e :: r =>
    if e = 'e' ∨ e = 'E' then
      let sg : List Char × List Char :=
        match r with
        | [] => ([], [])
        | x :: r1 => if x = '+' ∨ x = '-' then ([x], r1) else ([], x :: r1)
      let ds := takeDigits sg.2
      if ds.1 = [] then none else some (acc ++ e :: (sg.1 ++ ds.1), ds.2)
    else some (acc, e :: r)

/-- The fraction part of a number literal, after the digits `acc`. -/
def scanFraction (acc : List Char) : List Char → Option (List Char × List Char)
  | [] => some (acc, [])
  | c :: r =>
    if c = '.' then
      let ds := takeDigits r
      if ds.1 = [] then none else scanExponent (acc ++ '.' :: ds.1) ds.2
    else scanExponent acc (c :: r)

/-- The integer part of a number literal (after an optional sign `acc`). -/
def scanInteger (acc : List Char) : List Char → Option (List Char × List Char)
  | [] => none
  | c :: r =>
    if c = '0' then scanFraction (acc ++ ['0']) r
    else if 49 ≤ c.toNat ∧ c.toNat ≤ 57 then
      scanFraction (acc ++ c :: (takeDigits r).1) (takeDigits r).2
    else none

/-- A number literal (`stateNeg`, `state0`, `state1`, `stateDot`, … of the
scanner): the literal and the text after it. -/
def scanNumber : List Char → Option (List Char × List Char)
  | [] => none
  | c :: r => if c = '-' then scanInteger ['-'] r else scanInteger [] (c :: r)

/-- Go `maxNestingDepth` of the scanner. -/
def maxNestingDepth : Nat := 10000

mutual
/-- One JSON value at the front of the text (leading white space allowed),
with the text after it. `depth` is the number of enclosing arrays and objects. -/
def parseValue : Nat → Nat → List Char → Scan (JSON × List Char)
  | 0, _, _ => Scan.outOfFuel
  | fuel + 1, depth, cs =>
    match skipSpace cs with
    | [] => Scan.invalid
    | c :: rest =>
      if c = '{' then
        if maxNestingDepth ≤ depth then Scan.invalid
        else
          match skipSpace rest with
          | '}' :: rest1 => Scan.ok (JSON.object [], rest1)
          | _ =>
            match parseMembers fuel (depth + 1) rest with
            | Scan.ok (ms, rest1) => Scan.ok (JSON.object ms, rest1)
            | Scan.invalid => Scan.invalid
            | Scan.outOfFuel => Scan.outOfFuel
      else if c = '[' then
        if maxNestingDepth ≤ depth then Scan.invalid
        else
          match skipSpace rest with
          | ']' :: rest1 => Scan.ok (JSON.array [], rest1)
          | _ =>
            match parseElements fuel (depth + 1) rest with
            | Scan.ok (es, rest1) => Scan.ok (JSON.array es, rest1)
            | Scan.invalid => Scan.invalid
            | Scan.outOfFuel => Scan.outOfFuel
      else if c = '"' then
        match unquote rest with
        | some (s, rest1) => Scan.ok (JSON.string ⟨s⟩, rest1)
        | none => Scan.invalid
      else if c = 't' then
        match rest with
        | 'r' :: 'u' :: 'e' :: rest1 => Scan.ok (JSON.bool true, rest1)
        | _ => Scan.invalid
      else if c = 'f' then
        match rest with
        | 'a' :: 'l' :: 's' :: 'e' :: rest1 => Scan.ok (JSON.bool false, rest1)
        | _ => Scan.invalid
      else if c = 'n' then
        match rest with
        | 'u' :: 'l' :: 'l' :: rest1 => Scan.ok (JSON.null, rest1)
        | _ => Scan.invalid
      else
        match scanNumber (c :: rest) with
        | some (lit, rest1) => Scan.ok (JSON.number ⟨lit⟩, rest1)
        | none => Scan.invalid
/-- The members of a non-empty object, up to and including its closing brace. -/
def parseMembers : Nat → Nat → List Char → Scan (List (String × JSON) × List Char)
  | 0, _, _ => Scan.outOfFuel
  | fuel + 1, depth, cs =>
    match skipSpace cs with
    | '"' :: r =>
      match unquote r with
      | none => Scan.invalid
      | some (key, r1) =>
        match skipSpace r1 with
        | ':' :: r2 =>
          match parseValue fuel depth r2 with
          | Scan.ok (v, r3) =>
            match skipSpace r3 with
            | ',' :: r4 =>
              match parseMembers fuel depth r4 with
              | Scan.ok (ms, r5) => Scan.ok ((⟨key⟩, v) :: ms, r5)
              | Scan.invalid => Scan.invalid
              | Scan.outOfFuel => Scan.outOfFuel
            | '}' :: r4 => Scan.ok ([(⟨key⟩, v)], r4)
            | _ => Scan.invalid
          | Scan.invalid => Scan.invalid
          | Scan.outOfFuel => Scan.outOfFuel
        | _ => Scan.invalid
    | _ => Scan.invalid
/-- The elements of a non-empty array, up to and including its closing bracket. -/
def parseElements : Nat → Nat → List Char → Scan (List JSON × List Char)
  | 0, _, _ => Scan.outOfFuel
  | fuel + 1, depth, cs =>
    match parseValue fuel depth cs with
    | Scan.ok (v, r1) =>
      match skipSpace r1 with
      | ',' :: r2 =>
        match parseElements fuel depth r2 with
        | Scan.ok (es, r3) => Scan.ok (v :: es, r3)
        | Scan.invalid => Scan.invalid
        | Scan.outOfFuel => Scan.outOfFuel
      | ']' :: r2 => Scan.ok ([v], r2)
      | _ => Scan.invalid
    | Scan.invalid => Scan.invalid
    | Scan.outOfFuel => Scan.outOfFuel
end

/-- Go `checkValid` together with the reading of the text: the JSON value a
text denotes, or `none` when the text is not one valid JSON value (a
`*json.SyntaxError`). The recursion budget grows with the length of the text
so that the scan cannot exhaust it. -/
def parseJSON (data : String) : Option JSON :=
  match parseValue (2 * data.data.length + 2) 0 data.data with
  | Scan.ok (v, rest) => if skipSpace rest = [] then some v else none
  | Scan.invalid => none
  | Scan.outOfFuel => none

/-! ## `encoding/json`: decoding into a `PaymentRequest` -/

/-- The JSON-visible fields of `PaymentRequest`, in the order `encoding/json`
lists them: the promoted fields of the embedded `PaymentRequestRequest` first. -/
inductive Field
  | AllowCustomPaymentAmounts
  | Amount
  | Currency
  | CustomCSSLink
  | Description
  | Email
  | EmbeddedCSS
  | ExpiryDate
  | Title
  | Archived
  | Created
  | ID
  | Status
deriving DecidableEq

/-- The key of a field, from its `json:"…"` tag. -/
def Field.name : Field → String
  | Field.AllowCustomPaymentAmounts => "allowCustomPaymentAmounts"
  | Field.Amount => "amount"
  | Field.Currency => "currency"
  | Field.CustomCSSLink => "customCSSLink"
  | Field.Description => "description"
  | Field.Email => "email"
  | Field.EmbeddedCSS => "embeddedCSS"
  | Field.ExpiryDate => "expiryDate"
  | Field.Title => "title"
  | Field.Archived => "archived"
  | Field.Created => "created"
  | Field.ID => "id"
  | Field.Status => "status"

/-- Does the tag of the field carry `omitempty`? -/
def Field.omitEmpty : Field → Bool
  | Field.AllowCustomPaymentAmounts => true
  | Field.CustomCSSLink => true
  | Field.Description => true
  | Field.Email => true
  | Field.EmbeddedCSS => true
  | Field.ExpiryDate => true
  | _ => false

/-- Go kinds of the fields. -/
inductive Kind
  | bool
  | float64
  | string
deriving DecidableEq

/-- The Go kind of a field. -/
def Field.kind : Field → Kind
  | Field.AllowCustomPaymentAmounts => Kind.bool
  | Field.Archived => Kind.bool
  | Field.Amount => Kind.float64
  | _ => Kind.string

/-- The fields of `PaymentRequestRequest`. -/
def requestFields : List Field :=
  [Field.AllowCustomPaymentAmounts, Field.Amount, Field.Currency, Field.CustomCSSLink,
   Field.Description, Field.Email, Field.EmbeddedCSS, Field.ExpiryDate, Field.Title]

/-- The fields of `PaymentRequest`. -/
def allFields : List Field :=
  requestFields ++ [Field.Archived, Field.Created, Field.ID, Field.Status]

/-- Go `foldRune`, as far as it can produce an ASCII letter: lower case ASCII,
the Kelvin sign `U+212A` and the long s `U+017F` go to their upper case ASCII
letter. -/
def foldRune (c : Char) : Char :=
  if 97 ≤ c.toNat ∧ c.toNat ≤ 122 then Char.ofNat (c.toNat - 32)
  else if c.toNat = 8490 then 'K'
  else if c.toNat = 383 then 'S'
  else c

/-- Go `foldName`. -/
def foldName (s : String) : List Char := s.data.map foldRune

/-- The field an object key addresses: the field with exactly that name, else
the one whose name matches under case folding. -/
def findField (key : String) : Option Field :=
  match allFields.find? (fun f => decide (f.name = key)) with
  | some f => some f
  | none => allFields.find? (fun f => decide (foldName f.name = foldName key))

/-- Assign to a field of kind bool. -/
def setBool (f : Field) (b : Bool) (pr : PaymentRequest) : PaymentRequest :=
  match f with
  | Field.AllowCustomPaymentAmounts => { pr with AllowCustomPaymentAmounts := b }
  | Field.Archived => { pr with Archived := b }
  | _ => pr

/-- Assign to a field of kind float64. -/
def setFloat (f : Field) (x : Float64) (pr : PaymentRequest) : PaymentRequest :=
  match f with
  | Field.Amount => { pr with Amount := x }
  | _ => pr

/-- Assign to a field of kind string. -/
def setString (f : Field) (x : String) (pr : PaymentRequest) : PaymentRequest :=
  match f with
  | Field.Currency => { pr with Currency := x }
  | Field.CustomCSSLink => { pr with CustomCSSLink := x }
  | Field.Description => { pr with Description := x }
  | Field.Email => { pr with Email := x }
  | Field.EmbeddedCSS => { pr with EmbeddedCSS := x }
  | Field.ExpiryDate => { pr with ExpiryDate := x }
  | Field.Title => { pr with Title := x }
  | Field.Created => { pr with Created := x }
  | Field.ID => { pr with ID := x }
  | Field.Status => { pr with Status := x }
  | _ => pr

/-- Decode one JSON value into a field (`literalStore`, and `array` / `object`
on a field that is neither slice nor struct): the updated struct and the type
error, if any. A JSON `null` leaves the field as it is. -/
def storeField (f : Field) (v : JSON) (pr : PaymentRequest) : PaymentRequest × Option Error :=
  match v with
  | JSON.null => (pr, none)
  | JSON.bool b =>
    match f.kind with
    | Kind.bool => (setBool f b pr, none)
    | _ => (pr, some (Error.UnmarshalTypeError "bool"))
  | JSON.string x =>
    match f.kind with
    | Kind.string => (setString f x pr, none)
    | _ => (pr, some (Error.UnmarshalTypeError "string"))
  | JSON.number lit =>
    match f.kind with
    | Kind.float64 =>
      match ParseFloat lit.data with
      | some x => (setFloat f x pr, none)
      | none => (pr, some (Error.UnmarshalTypeError ("number " ++ lit)))
    | _ => (pr, some (Error.UnmarshalTypeError "number"))
  | JSON.array _ => (pr, some (Error.UnmarshalTypeError "array"))
  | JSON.object _ => (pr, some (Error.UnmarshalTypeError "object"))

/-- Go `saveError`: keep the first error. -/
def saveError (saved new : Option Error) : Option Error :=
  match saved with
  | some e => some e
  | none => new

/-- Decode the members of an object into the struct, in order; members whose
key addresses no field are skipped, decoding goes on after a type error. -/
def decodeMembers : List (String × JSON) → PaymentRequest → Option Error →
    PaymentRequest × Option Error
  | [], pr, saved => (pr, saved)
  | (k, v) :: ms, pr, saved =>
    match findField k with
    | none => decodeMembers ms pr saved
    | some f => decodeMembers ms (storeField f v pr).1 (saveError saved (storeField f v pr).2)

/-- Go `json.Unmarshal(data, paymentRequest)` for `paymentRequest *PaymentRequest`:
the struct after the call and the returned error. Invalid text leaves the
struct untouched. -/
def Unmarshal (data : String) (pr : PaymentRequest) : PaymentRequest × Option Error :=
  match parseJSON data with
  | none => (pr, some Error.SyntaxError)
  | some JSON.null => (pr, none)
  | some (JSON.bool _) => (pr, some (Error.UnmarshalTypeError "bool"))
  | some (JSON.number _) => (pr, some (Error.UnmarshalTypeError "number"))
  | some (JSON.string _) => (pr, some (Error.UnmarshalTypeError "string"))
  | some (JSON.array _) => (pr, some (Error.UnmarshalTypeError "array"))
  | some (JSON.object ms) => decodeMembers ms pr none

/-! ## `encoding/json`: writing -/

/-- A lower case hexadecimal digit. -/
def hexChar (n : Nat) : Char := if n < 10 then Char.ofNat (48 + n) else Char.ofNat (87 + n)

/-- How `encoding/json` writes one character of a string (HTML escaping on, as
in `json.Marshal`). -/
def escapeChar (c : Char) : List Char :=
  if c = '"' ∨ c = '\\' then ['\\', c]
  else if c.toNat = 8 then ['\\', 'b']
  else if c.toNat = 12 then ['\\', 'f']
  else if c.toNat = 10 then ['\\', 'n']
  else if c.toNat = 13 then ['\\', 'r']
  else if c.toNat = 9 then ['\\', 't']
  else if c.toNat < 32 ∨ c = '<' ∨ c = '>' ∨ c = '&' then
    ['\\', 'u', '0', '0', hexChar (c.toNat / 16), hexChar (c.toNat % 16)]
  else if c.toNat = 8232 ∨ c.toNat = 8233 then
    ['\\', 'u', '2', '0', '2', hexChar (c.toNat % 16)]
  else [c]

/-- The escaped contents of a string literal. -/
def escapeString : List Char → List Char
  | [] => []
  | c :: cs => escapeChar c ++ escapeString cs

/-- Go `appendString`: a quoted JSON string literal. -/
def quote (s : String) : List Char := '"' :: (escapeString s.data ++ ['"'])

/-- The text of a bool. -/
def encodeBool (b : Bool) : List Char := if b then "true".data else "false".data

/-- The members `encoding/json` writes for a `PaymentRequestRequest`: key and
encoded value, in field order, `omitempty` fields left out when empty. -/
def requestMembers (r : PaymentRequestRequest) : List (String × List Char) :=
  (if r.AllowCustomPaymentAmounts then [("allowCustomPaymentAmounts", encodeBool true)] else []) ++
  [("amount", encodeFloat r.Amount), ("currency", quote r.Currency)] ++
  (if r.CustomCSSLink = "" then [] else [("customCSSLink", quote r.CustomCSSLink)]) ++
  (if r.Description = "" then [] else [("description", quote r.Description)]) ++
  (if r.Email = "" then [] else [("email", quote r.Email)]) ++
  (if r.EmbeddedCSS = "" then [] else [("embeddedCSS", quote r.EmbeddedCSS)]) ++
  (if r.ExpiryDate = "" then [] else [("expiryDate", quote r.ExpiryDate)]) ++
  [("title", quote r.Title)]

/-- The members `encoding/json` writes for a `PaymentRequest`. -/
def paymentRequestMembers (p : PaymentRequest) : List (String × List Char) :=
  requestMembers p.toPaymentRequestRequest ++
  [("archived", encodeBool p.Archived), ("created", quote p.Created), ("id", quote p.ID),
   ("status", quote p.Status)]

/-- The members of an object, comma separated. -/
def encodeMembers : List (String × List Char) → List Char
  | [] => []
  | [(k, v)] => quote k ++ ':' :: v
  | (k, v) :: m :: ms => quote k ++ ':' :: (v ++ ',' :: encodeMembers (m :: ms))

/-- A JSON object text. -/
def encodeObject (ms : List (String × List Char)) : String :=
  ⟨'{' :: (encodeMembers ms ++ ['}'])⟩

/-- The `Str` of the `UnsupportedValueError` for a float64 that is no number
(`strconv.FormatFloat(f, 'g', -1, 64)`). -/
def unsupportedFloat (f : Float64) : String :=
  if f.IsNaN then "NaN" else if f.neg then "-Inf" else "+Inf"

deriving instance DecidableEq for Except

/-- Go `json.Marshal(request)` for `request *PaymentRequestRequest`; `none` is
the nil pointer. -/
def Marshal (request : Option PaymentRequestRequest) : Except Error String :=
  match request with
  | none => Except.ok "null"
  | some r =>
    if r.Amount.IsNaN ∨ r.Amount.IsInf then
      Except.error (Error.UnsupportedValueError (unsupportedFloat r.Amount))
    else Except.ok (encodeObject (requestMembers r))

/-- Go `json.Marshal(p)` for a `PaymentRequest` value. -/
def MarshalPaymentRequest (p : PaymentRequest) : Except Error String :=
  if p.Amount.IsNaN ∨ p.Amount.IsInf then
    Except.error (Error.UnsupportedValueError (unsupportedFloat p.Amount))
  else Except.ok (encodeObject (paymentRequestMembers p))

/-! ## The transport and the two operations -/

/-- One call of `store.DoRequest(method, path, body)`; `Body = none` is the nil
reader. -/
structure Call where
  Method : String
  Path : String
  Body : Option String
deriving DecidableEq

/-- What the operations use of an `*http.Response`: the status code and the
result of `io.ReadAll(resp.Body)`. -/
structure Response where
  StatusCode : Int
  Body : Except Error String

/-- Modelled from the spec: the transport `Store` and its method `DoRequest`
are declared outside `payment-request.go`; `DoRequest(method, relativePath,
body)` returns a response or an error. -/
structure Store where
  DoRequest : Call → Except Error Response

/-- What a call of one of the operations does: Go's `(result, error)` pair, and
the transport calls made, in order. -/
structure Outcome where
  result : Option PaymentRequest
  err : Option Error
  calls : List Call

/-- Go `(store *Store) CreatePaymentRequest(request *PaymentRequestRequest)`. -/
def Store.CreatePaymentRequest (store : Store) (request : Option PaymentRequestRequest) :
    Outcome :=
  match Marshal request with
  | Except.error err => ⟨none, some err, []⟩
  | Except.ok payload =>
    match store.DoRequest ⟨"POST", "payment-requests", some payload⟩ with
    | Except.error err => ⟨none, some err, [⟨"POST", "payment-requests", some payload⟩]⟩
    | Except.ok resp =>
      match resp.Body with
      | Except.error err => ⟨none, some err, [⟨"POST", "payment-requests", some payload⟩]⟩
      | Except.ok body =>
        if resp.StatusCode = 200 then
          ⟨some (Unmarshal body PaymentRequest.zero).1, (Unmarshal body PaymentRequest.zero).2,
            [⟨"POST", "payment-requests", some payload⟩]⟩
        else if resp.StatusCode = 401 then
          ⟨none, some Error.ErrUnauthenticated, [⟨"POST", "payment-requests", some payload⟩]⟩
        else if resp.StatusCode = 403 then
          ⟨none, some Error.ErrUnauthorized, [⟨"POST", "payment-requests", some payload⟩]⟩
        else if resp.StatusCode = 400 then
          ⟨none, some Error.ErrBadRequest, [⟨"POST", "payment-requests", some payload⟩]⟩
        else if resp.StatusCode = 404 then
          ⟨none, some Error.ErrNotFound, [⟨"POST", "payment-requests", some payload⟩]⟩
        else
          ⟨none, some (Error.Errorf ("response status: " ++ Itoa resp.StatusCode)),
            [⟨"POST", "payment-requests", some payload⟩]⟩

/-- Go `(store *Store) GetPaymentRequest(id string)`. -/
def Store.GetPaymentRequest (store : Store) (id : String) : Outcome :=
  match store.DoRequest ⟨"GET", "payment-requests/" ++ id, none⟩ with
  | Except.error err => ⟨none, some err, [⟨"GET", "payment-requests/" ++ id, none⟩]⟩
  | Except.ok resp =>
    match resp.Body with
    | Except.error err => ⟨none, some err, [⟨"GET", "payment-requests/" ++ id, none⟩]⟩
    | Except.ok body =>
      if resp.StatusCode = 200 then
        ⟨some (Unmarshal body PaymentRequest.zero).1, (Unmarshal body PaymentRequest.zero).2,
          [⟨"GET", "payment-requests/" ++ id, none⟩]⟩
      else if resp.StatusCode = 401 then
        ⟨none, some Error.ErrUnauthenticated, [⟨"GET", "payment-requests/" ++ id, none⟩]⟩
      else if resp.StatusCode = 403 then
        ⟨none, some Error.ErrUnauthorized, [⟨"GET", "payment-requests/" ++ id, none⟩]⟩
      else if resp.StatusCode = 400 then
        ⟨none, some Error.ErrBadRequest, [⟨"GET", "payment-requests/" ++ id, none⟩]⟩
      else if resp.StatusCode = 404 then
        ⟨none, some Error.ErrNotFound, [⟨"GET", "payment-requests/" ++ id, none⟩]⟩
      else
        ⟨none, some (Error.Errorf ("response status: " ++ Itoa resp.StatusCode)),
          [⟨"GET", "payment-requests/" ++ id, none⟩]⟩

/-! ## `time` -/

/-- Go `int64(x)`: the value of `x` in 64-bit two's complement. Go's `int` is
taken to be 64 bits wide (the 64-bit platforms), so this is also `int(x)`. -/
def int64 (x : Int) : Int :=
  (x + 9223372036854775808) % 18446744073709551616 - 9223372036854775808

/-- Go `uint64(x)`. -/
def uint64 (x : Int) : Int := x % 18446744073709551616

/-- What Go `(l *Location) lookup(sec)` reports about the zone in use at an
instant: its offset in seconds east of UTC and the interval of Unix seconds
`start ≤ sec < stop` (Go `end`) in which it is in use. -/
structure Zone where
  offset : Int
  start : Int
  stop : Int
deriving DecidableEq

/-- A Go `*time.Location`, by its method `lookup`. `time.Now()` is in
`time.Local`, which is some location fixed when the process starts. -/
structure Location where
  lookup : Int → Zone

/-- A Go `time.Time`, by `unixSec()`, `nsec()` and `Location()`. The monotonic
clock reading of `time.Now()`, which `AddDate` and `Format` do not use, is left
out. -/
structure Time where
  unix : Int
  nsec : Fin 1000000000
  loc : Location

/-- Go `unixToInternal + internalToAbsolute`: seconds from the absolute epoch
to the Unix epoch. -/
def unixToAbsolute : Int := 9223372028715321600

/-- Go `(t Time) abs` and the `abs` result of `locabs`: seconds since the
absolute epoch, in the location, as a `uint64`. -/
def Time.abs (t : Time) : Int :=
  uint64 (int64 (int64 (t.unix + (t.loc.lookup t.unix).offset) + unixToAbsolute))

/-- An RFC 3339 `date-time` with whole seconds, by the numbers its fields
stand for: `date-fullyear`, `date-month`, `date-mday`, `time-hour`,
`time-minute`, `time-second`, and the `time-offset`, which is `Z` (`none`) or
the sign (`true` for `-`), hours and minutes of a `time-numoffset`. -/
structure DateTime where
  year : Nat
  month : Nat
  day : Nat
  hour : Nat
  minute : Nat
  second : Nat
  zone : Option (Bool × Nat × Nat)

/-- Leap years of the Gregorian calendar. -/
def DateTime.leapYear (y : Nat) : Bool :=
  decide (y % 4 = 0 ∧ (y % 100 ≠ 0 ∨ y % 400 = 0))

/-- Days of a month (RFC 3339, section 5.7). -/
def DateTime.daysIn (y m : Nat) : Nat :=
  if m = 2 then (if DateTime.leapYear y then 29 else 28)
  else if m = 4 ∨ m = 6 ∨ m = 9 ∨ m = 11 then 30
  else 31

/-- Two decimal digits (`2DIGIT`). -/
def twoDigits (n : Nat) : List Char :=
  [Char.ofNat (48 + n / 10 % 10), Char.ofNat (48 + n % 10)]

/-- Four decimal digits (`4DIGIT`). -/
def fourDigits (n : Nat) : List Char :=
  [Char.ofNat (48 + n / 1000 % 10), Char.ofNat (48 + n / 100 % 10),
    Char.ofNat (48 + n / 10 % 10), Char.ofNat (48 + n % 10)]

/-- The text of the `date-time`: `full-date "T" partial-time time-offset`. -/
def DateTime.text (dt : DateTime) : String :=
  ⟨fourDigits dt.year ++ '-' :: twoDigits dt.month ++ '-' :: twoDigits dt.day ++
    'T' :: twoDigits dt.hour ++ ':' :: twoDigits dt.minute ++ ':' :: twoDigits dt.second ++
    (match dt.zone with
     | none => ['Z']
     | some (neg, hh, mm) => (if neg then '-' else '+') :: twoDigits hh ++ ':' :: twoDigits mm)⟩

/-- Days from 1970-01-01 to the date, in the proleptic Gregorian calendar:
365 days for each year since year 0, one more for each leap year among them,
the days of the months before, and the days of the month before. -/
def DateTime.dayNumber (dt : DateTime) : Int :=
  365 * (dt.year : Int) + ((dt.year : Int) + 3) / 4 - ((dt.year : Int) + 99) / 100 +
    ((dt.year : Int) + 399) / 400 +
    (((List.range (dt.month - 1)).map (fun k => DateTime.daysIn dt.year (k + 1))).sum : Nat) +
    ((dt.day : Int) - 1) - 719528

/-- Seconds east of UTC of the `time-offset`. -/
def DateTime.zoneSeconds (dt : DateTime) : Int :=
  match dt.zone with
  | none => 0
  | some (neg, hh, mm) =>
    if neg then -(3600 * (hh : Int) + 60 * (mm : Int)) else 3600 * (hh : Int) + 60 * (mm : Int)

/-- The Unix second the `date-time` denotes. -/
def DateTime.unix (dt : DateTime) : Int :=
  86400 * dt.dayNumber + 3600 * (dt.hour : Int) + 60 * (dt.minute : Int) + (dt.second : Int) -
    dt.zoneSeconds

/-! ## Shapes of response bodies -/

/-- Is the value the JSON `null`? -/
def JSON.isNull : JSON → Bool
  | JSON.null => true
  | _ => false

/-- Does a JSON value have the JSON type of a field of the given Go kind: a
boolean for bool, a string for string, a number within the float64 range for
float64? -/
def typeMatches : Kind → JSON → Bool
  | Kind.bool, JSON.bool _ => true
  | Kind.string, JSON.string _ => true
  | Kind.float64, JSON.number lit => (ParseFloat lit.data).isSome
  | _, _ => false

/-- The members of an object have the PaymentRequest shape: every member whose
key names a field holds a value of that field's JSON type. -/
def wellShaped (ms : List (String × JSON)) : Bool :=
  ms.all (fun kv =>
    match findField kv.1 with
    | none => true
    | some f => typeMatches f.kind kv.2)

/-- The members `json.Unmarshal` decodes without a type error: as `wellShaped`,
but a `null` is taken for any field. -/
def membersAccepted (ms : List (String × JSON)) : Bool :=
  ms.all (fun kv =>
    match findField kv.1 with
    | none => true
    | some f => kv.2.isNull || typeMatches f.kind kv.2)

/-- The errors of `json.Unmarshal`. -/
def Error.isDecodeError : Error → Bool
  | Error.SyntaxError => true
  | Error.UnmarshalTypeError _ => true
  | _ => false

/-- A Go value of one of the three field kinds. -/
inductive Value
  | bool (b : Bool)
  | float64 (x : Float64)
  | string (s : String)
deriving DecidableEq

/-- The value of a field of a `PaymentRequest`. -/
def PaymentRequest.get (pr : PaymentRequest) : Field → Value
  | Field.AllowCustomPaymentAmounts => Value.bool pr.AllowCustomPaymentAmounts
  | Field.Amount => Value.float64 pr.Amount
  | Field.Currency => Value.string pr.Currency
  | Field.CustomCSSLink => Value.string pr.CustomCSSLink
  | Field.Description => Value.string pr.Description
  | Field.Email => Value.string pr.Email
  | Field.EmbeddedCSS => Value.string pr.EmbeddedCSS
  | Field.ExpiryDate => Value.string pr.ExpiryDate
  | Field.Title => Value.string pr.Title
  | Field.Archived => Value.bool pr.Archived
  | Field.Created => Value.string pr.Created
  | Field.ID => Value.string pr.ID
  | Field.Status => Value.string pr.Status

/-- The Go value a JSON value of the matching type denotes; for a number the
float64 nearest to the literal. -/
def valueOf : JSON → Option Value
  | JSON.bool b => some (Value.bool b)
  | JSON.string x => some (Value.string x)
  | JSON.number lit => (ParseFloat lit.data).map Value.float64
  | _ => none

/-- The value of the last member of an object whose key names the field. -/
def lookupField (f : Field) : List (String × JSON) → Option JSON
  | [] => none
  | (k, v) :: ms =>
    match lookupField f ms with
    | some w => some w
    | none => if findField k = some f then some v else none

/-- A body that decodes partially: the amount has the wrong JSON type. -/
def partialBody : String := "\x7b\"id\":\"abc\",\"amount\":\"x\"\x7d"

/-! ## Written values -/

/-- The text `encoding/json` writes for a field value. -/
def Value.encode : Value → List Char
  | Value.bool b => encodeBool b
  | Value.float64 x => encodeFloat x
  | Value.string x => quote x

/-- The JSON value that the text written for a field value denotes. -/
def Value.toJSON : Value → JSON
  | Value.bool b => JSON.bool b
  | Value.float64 x => JSON.number ⟨encodeFloat x⟩
  | Value.string x => JSON.string x

/-- The text written for the float64 is a JSON number literal that
`strconv.ParseFloat` converts back to the same float64: the round-trip
guarantee of Go's shortest formatting. -/
def floatRoundTrips (x : Float64) : Bool :=
  decide (scanNumber (encodeFloat x) = some (encodeFloat x, [])) &&
  decide (ParseFloat (encodeFloat x) = some x)

/-- Is the value the empty value `omitempty` looks for? -/
def Value.isEmpty : Value → Bool
  | Value.bool b => !b
  | Value.float64 x => decide (x.bits.val % 2 ^ 63 = 0)
  | Value.string x => decide (x = "")

/-- The members `encoding/json` writes for a `PaymentRequestRequest`, as keys
and Go values. -/
def requestValues (r : PaymentRequestRequest) : List (String × Value) :=
  (if r.AllowCustomPaymentAmounts then [("allowCustomPaymentAmounts", Value.bool true)] else []) ++
  [("amount", Value.float64 r.Amount), ("currency", Value.string r.Currency)] ++
  (if r.CustomCSSLink = "" then [] else [("customCSSLink", Value.string r.CustomCSSLink)]) ++
  (if r.Description = "" then [] else [("description", Value.string r.Description)]) ++
  (if r.Email = "" then [] else [("email", Value.string r.Email)]) ++
  (if r.EmbeddedCSS = "" then [] else [("embeddedCSS", Value.string r.EmbeddedCSS)]) ++
  (if r.ExpiryDate = "" then [] else [("expiryDate", Value.string r.ExpiryDate)]) ++
  [("title", Value.string r.Title)]

/-- The fields `encoding/json` writes for a payment request, in order. -/
def writtenFields (p : PaymentRequest) : List Field :=
  allFields.filter (fun f => !(f.omitEmpty && (p.get f).isEmpty))

/-! ## Example inputs -/

/-- A transport that answers every call with the given status and body. -/
def stubStore (code : Int) (body : String) : Store :=
  ⟨fun _ => Except.ok ⟨code, Except.ok body⟩⟩

/-- A transport whose call itself fails. -/
def failingStore (e : Error) : Store := ⟨fun _ => Except.error e⟩

/-- The float64 constant `10.5`. -/
def float10_5 : Float64 := ⟨4622100592565682176⟩

/-- A quiet NaN. -/
def floatNaN : Float64 := ⟨9221120237041090560⟩

/-- A request with the three mandatory fields set. -/
def sampleRequest : PaymentRequestRequest :=
  { PaymentRequestRequest.zero with Amount := float10_5, Currency := "USD", Title := "Invoice 1" }

/-- A request whose amount is NaN. -/
def nanRequest : PaymentRequestRequest :=
  { PaymentRequestRequest.zero with Amount := floatNaN, Currency := "USD", Title := "Invoice 1" }

/-- The response body of the spec's example. -/
def sampleBody : String :=
  "\x7b\"id\":\"abc\",\"status\":\"Pending\",\"amount\":10.5,\"currency\":\"USD\",\"title\":\"Invoice 1\"\x7d"

/-- The payment request the example body denotes. -/
def samplePaymentRequest : PaymentRequest :=
  { toPaymentRequestRequest := sampleRequest,
    Archived := false, Created := "", ID := "abc", Status := PaymentRequestPending }

/-! ## JSON texts (RFC 8259) -/

/-- JSON white space (RFC 8259, section 2): space, horizontal tab, line feed
and carriage return. -/
def IsWs (w : List Char) : Prop :=
  ∀ c ∈ w, c = Char.ofNat 32 ∨ c = Char.ofNat 9 ∨ c = Char.ofNat 10 ∨ c = Char.ofNat 13

/-- A hexadecimal digit and its value. -/
def HexDigit (c : Char) (n : Nat) : Prop :=
  (c, n) ∈ [('0', 0), ('1', 1), ('2', 2), ('3', 3), ('4', 4), ('5', 5), ('6', 6), ('7', 7),
    ('8', 8), ('9', 9), ('a', 10), ('b', 11), ('c', 12), ('d', 13), ('e', 14), ('f', 15),
    ('A', 10), ('B', 11), ('C', 12), ('D', 13), ('E', 14), ('F', 15)]

/-- Four hexadecimal digits and the number they write. -/
def Hex4 (a b c d : Char) (n : Nat) : Prop :=
  ∃ x y z w, HexDigit a x ∧ HexDigit b y ∧ HexDigit c z ∧ HexDigit d w ∧
    n = 4096 * x + 256 * y + 16 * z + w

/-- The two-character escapes of a string (RFC 8259, section 7) and the
characters they stand for. -/
def Escape (e ch : Char) : Prop :=
  (e, ch) ∈ [('"', '"'), ('\\', '\\'), ('/', '/'), ('b', Char.ofNat 8), ('f', Char.ofNat 12),
    ('n', Char.ofNat 10), ('r', Char.ofNat 13), ('t', Char.ofNat 9)]

/-- The decimal digits. -/
def IsDigits (ds : List Char) : Prop :=
  ∀ c ∈ ds, c ∈ ['0', '1', '2', '3', '4', '5', '6', '7', '8', '9']

/-- The exponent part of a JSON number: `e` or `E`, an optional sign (`some
true` is minus) and digits. -/
structure Exponent where
  upper : Bool
  sign : Option Bool
  digits : List Char

/-- The parts of a JSON number (RFC 8259, section 6): an optional minus, the
integer digits, the digits of the fraction (none when there is no fraction)
and an optional exponent. -/
structure NumberLit where
  minus : Bool
  int : List Char
  frac : List Char
  exp : Option Exponent

/-- The text of an exponent part. -/
def Exponent.text (e : Exponent) : List Char :=
  (if e.upper then 'E' else 'e') ::
    ((match e.sign with
      | none => []
      | some true => ['-']
      | some false => ['+']) ++ e.digits)

/-- The text of a number. -/
def NumberLit.text (n : NumberLit) : List Char :=
  (if n.minus then ['-'] else []) ++
    (n.int ++ ((if n.frac = [] then [] else '.' :: n.frac) ++
      (match n.exp with
       | none => []
       | some e => e.text)))

/-- The number a run of decimal digits writes. -/
def decimal : List Char → Nat
  | [] => 0
  | c :: r => (c.toNat - 48) * 10 ^ r.length + decimal r

/-- The power of ten an exponent part writes. -/
def Exponent.value (e : Exponent) : Int :=
  if e.sign = some true then -(decimal e.digits : Int) else (decimal e.digits : Int)

/-- The float64 a JSON number stands for: the one nearest to the digits of
integer part and fraction, read as one integer, times ten to the exponent less
the number of fraction digits; `none` when that is beyond the float64 range. -/
def NumberLit.float64 (n : NumberLit) : Option Float64 :=
  let e10 : Int :=
    (match n.exp with
     | none => 0
     | some e => e.value) - (n.frac.length : Int)
  if 0 ≤ e10 then roundToFloat64 n.minus (decimal (n.int ++ n.frac) * 10 ^ e10.toNat) 1
  else roundToFloat64 n.minus (decimal (n.int ++ n.frac)) (10 ^ (-e10).toNat)

/-- An element of an array as written: the white space before the value, the
text of the value, the white space after it, and the value. -/
structure ElementText where
  before : List Char
  text : List Char
  after : List Char
  value : JSON

/-- The text of an element. -/
def ElementText.all (e : ElementText) : List Char := e.before ++ (e.text ++ e.after)

/-- A member of an object as written: white space, the key between quotes
(its text and the string it writes), white space, the colon, and the value as
an element. -/
structure MemberText where
  before : List Char
  keyText : List Char
  key : List Char
  mid : List Char
  elem : ElementText

/-- The text of a member. -/
def MemberText.all (m : MemberText) : List Char :=
  m.before ++ ('"' :: (m.keyText ++ ('"' :: (m.mid ++ (':' :: m.elem.all)))))

/-- The Go kind of a value. -/
def Value.kind : Value → Kind
  | Value.bool _ => Kind.bool
  | Value.float64 _ => Kind.float64
  | Value.string _ => Kind.string

/-- The error the status table assigns to 401, 403, 400 and 404. -/
def sentinelOf (code : Int) : Error :=
  if code = 401 then Error.ErrUnauthenticated
  else if code = 403 then Error.ErrUnauthorized
  else if code = 400 then Error.ErrBadRequest
  else Error.ErrNotFound

/-- What a caller can receive: an error and no result, a result and no error,
or, when a status-200 body fails to decode, the struct `json.Unmarshal` was
filling together with the decode error. -/
def Outcome.Allowed (store : Store) (o : Outcome) : Prop :=
  (o.result = none ∧ o.err ≠ none) ∨
  (o.result ≠ none ∧ o.err = none) ∨
  (∃ call resp body e,
    o.calls = [call] ∧ store.DoRequest call = Except.ok resp ∧ resp.StatusCode = 200 ∧
    resp.Body = Except.ok body ∧ o.result = some (Unmarshal body PaymentRequest.zero).1 ∧
    (Unmarshal body PaymentRequest.zero).2 = some e ∧ o.err = some e ∧
    e.isDecodeError = true)

/-- The characters a float64 is written with. -/
def isNumberChar (c : Char) : Bool :=
  isDigit c || c = '-' || c = '+' || c = '.' || c = 'e'

/-- The float64 is finite. -/
def Float64.IsFinite (f : Float64) : Prop := f.expField ≠ 2047

/-- The exponent part of a number text: nothing, or `e`, a sign and digits. -/
def exponentText : Option (Bool × List Char) → List Char
  | none => []
  | some (eneg, xs) => 'e' :: (if eneg then '-' else '+') :: xs

/-- The exponent a number text carries. -/
def exponentValue : Option (Bool × List Char) → Int
  | none => 0
  | some (eneg, xs) => if eneg then -(digitsValue xs : Int) else (digitsValue xs : Int)

/-- A number text: sign, integer digits, fraction digits and exponent part. -/
def numberText (neg : Bool) (ip fp : List Char) (ex : Option (Bool × List Char)) : List Char :=
  (if neg then ['-'] else []) ++
    (ip ++ ((if fp = [] then [] else '.' :: fp) ++ exponentText ex))

/-- The exponent digits are digits, and there is one at least. -/
def ExponentOK (ex : Option (Bool × List Char)) : Prop :=
  ∀ eneg xs, ex = some (eneg, xs) → xs ≠ [] ∧ ∀ c ∈ xs, isDigit c = true

/-- The integer digits are `0` alone or start with a non-zero digit. -/
def IntegerOK (ip : List Char) : Prop :=
  ip = ['0'] ∨ ∃ c r, ip = c :: r ∧ 49 ≤ c.toNat ∧ c.toNat ≤ 57 ∧ ∀ x ∈ r, isDigit x = true

/-- The exponent digits `strconv` writes: two at least. -/
def exponentDigits (k : Nat) : List Char :=
  if k < 10 then '0' :: natDigits k else natDigits k

/-- A character that ends a value inside an object. -/
def isDelimiter (c : Char) : Prop := c = ',' ∨ c = '}'

/-- The flag under which the text of every float64 among the values is a number
literal. -/
def NumbersScan (ms : List (String × Value)) : Prop :=
  ∀ kv ∈ ms, ∀ x, kv.2 = Value.float64 x → scanNumber (encodeFloat x) = some (encodeFloat x, [])

/-- A payment request whose amount is NaN. -/
def nanPaymentRequest : PaymentRequest :=
  { toPaymentRequestRequest := nanRequest, Archived := false, Created := "", ID := "abc",
    Status := PaymentRequestPending }

/-- A payment request with every field populated, among them characters that
are escaped when written. -/
def fullPaymentRequest : PaymentRequest :=
  { AllowCustomPaymentAmounts := true, Amount := float10_5, Currency := "USD",
    CustomCSSLink := "https://example.com/a.css?x=1&y=2",
    Description := "<p>\"Pay\" \\ now</p>\n\tline", Email := "a@example.com",
    EmbeddedCSS := "body \x7b color: red \x7d", ExpiryDate := "2024-01-02T03:04:05Z",
    Title := "Invoice 1", Archived := true, Created := "1700000000", ID := "abc",
    Status := PaymentRequestPending }

/-- C1. When the transport answers with status 401, 403, 400 or 404, both
`CreatePaymentRequest` and `GetPaymentRequest` return a nil result, and for every
body read from the response the error is `ErrUnauthenticated`,
`ErrUnauthorized`, `ErrBadRequest`, `ErrNotFound` respectively: the body has
no influence on it. -/
theorem C1_status_sentinels (store : Store) (request : Option PaymentRequestRequest)
    (id payload : String) (resp : Response) (body : String)
    (hcode : resp.StatusCode = 401 ∨ resp.StatusCode = 403 ∨ resp.StatusCode = 400 ∨
      resp.StatusCode = 404)
    (hbody : resp.Body = Except.ok body) :
    (Marshal request = Except.ok payload →
      store.DoRequest ⟨"POST", "payment-requests", some payload⟩ = Except.ok resp →
      (store.CreatePaymentRequest request).result = none ∧
      (store.CreatePaymentRequest request).err = some (sentinelOf resp.StatusCode)) ∧
    (store.DoRequest ⟨"GET", "payment-requests/" ++ id, none⟩ = Except.ok resp →
      (store.GetPaymentRequest id).result = none ∧
      (store.GetPaymentRequest id).err = some (sentinelOf resp.StatusCode)) ∧
    sentinelOf 401 = Error.ErrUnauthenticated ∧ sentinelOf 403 = Error.ErrUnauthorized ∧
    sentinelOf 400 = Error.ErrBadRequest ∧ sentinelOf 404 = Error.ErrNotFound := by
  refine ⟨?_, ?_, by decide, by decide, by decide, by decide⟩
  · intro hm hd
    unfold Store.CreatePaymentRequest
    rw [hm]; simp only [hd, hbody]
    rcases hcode with h | h | h | h <;> simp [h, sentinelOf]
  · intro hd
    unfold Store.GetPaymentRequest
    simp only [hd, hbody]
    rcases hcode with h | h | h | h <;> simp [h, sentinelOf]

/-- C1 at a concrete input: status 401 with the example body. -/
theorem C1_status_sentinels_witness :
    ((stubStore 401 sampleBody).CreatePaymentRequest (some sampleRequest)).result = none ∧
    ((stubStore 401 sampleBody).CreatePaymentRequest (some sampleRequest)).err =
      some Error.ErrUnauthenticated ∧
    ((stubStore 401 sampleBody).GetPaymentRequest "abc").result = none ∧
    ((stubStore 401 sampleBody).GetPaymentRequest "abc").err = some Error.ErrUnauthenticated := by
  have h := C1_status_sentinels (stubStore 401 sampleBody) (some sampleRequest) "abc"
    (encodeObject (requestMembers sampleRequest)) ⟨401, Except.ok sampleBody⟩ sampleBody
    (Or.inl rfl) rfl
  exact ⟨(h.1 (by decide!) rfl).1, (h.1 (by decide!) rfl).2, (h.2.1 rfl).1, (h.2.1 rfl).2⟩

/-- C2. When the transport answers with a status outside 200, 400, 401, 403 and
404 (201 and 204 included), both operations return a nil result and the error
`fmt.Errorf("response status: %d", code)`, whatever the body; for 418 the
message is `response status: 418`. -/
theorem C2_unexpected_status (store : Store) (request : Option PaymentRequestRequest)
    (id payload : String) (resp : Response) (body : String)
    (h200 : resp.StatusCode ≠ 200) (h400 : resp.StatusCode ≠ 400)
    (h401 : resp.StatusCode ≠ 401) (h403 : resp.StatusCode ≠ 403)
    (h404 : resp.StatusCode ≠ 404) (hbody : resp.Body = Except.ok body) :
    (Marshal request = Except.ok payload →
      store.DoRequest ⟨"POST", "payment-requests", some payload⟩ = Except.ok resp →
      (store.CreatePaymentRequest request).result = none ∧
      (store.CreatePaymentRequest request).err =
        some (Error.Errorf ("response status: " ++ Itoa resp.StatusCode))) ∧
    (store.DoRequest ⟨"GET", "payment-requests/" ++ id, none⟩ = Except.ok resp →
      (store.GetPaymentRequest id).result = none ∧
      (store.GetPaymentRequest id).err =
        some (Error.Errorf ("response status: " ++ Itoa resp.StatusCode))) ∧
    "response status: " ++ Itoa 418 = "response status: 418" ∧
    "response status: " ++ Itoa 201 = "response status: 201" ∧
    "response status: " ++ Itoa 204 = "response status: 204" := by
  refine ⟨?_, ?_, by decide, by decide, by decide⟩
  · intro hm hd
    unfold Store.CreatePaymentRequest
    rw [hm]; simp only [hd, hbody]
    simp [h200, h400, h401, h403, h404]
  · intro hd
    unfold Store.GetPaymentRequest
    simp only [hd, hbody]
    simp [h200, h400, h401, h403, h404]

/-- C2 at a concrete input: status 418 with the example body. -/
theorem C2_unexpected_status_witness :
    ((stubStore 418 sampleBody).CreatePaymentRequest (some sampleRequest)).result = none ∧
    ((stubStore 418 sampleBody).CreatePaymentRequest (some sampleRequest)).err =
      some (Error.Errorf "response status: 418") ∧
    ((stubStore 418 sampleBody).GetPaymentRequest "abc").result = none ∧
    ((stubStore 418 sampleBody).GetPaymentRequest "abc").err =
      some (Error.Errorf "response status: 418") := by
  have h := C2_unexpected_status (stubStore 418 sampleBody) (some sampleRequest) "abc"
    (encodeObject (requestMembers sampleRequest)) ⟨418, Except.ok sampleBody⟩ sampleBody
    (by decide) (by decide) (by decide) (by decide) (by decide) rfl
  exact ⟨(h.1 (by decide!) rfl).1, (h.1 (by decide!) rfl).2, (h.2.1 rfl).1, (h.2.1 rfl).2⟩

/-- C6. When `DoRequest` returns an error, both operations return a nil result
and that very error; no response is looked at. -/
theorem C6_transport_error (store : Store) (request : Option PaymentRequestRequest)
    (id payload : String) (e : Error) :
    (Marshal request = Except.ok payload →
      store.DoRequest ⟨"POST", "payment-requests", some payload⟩ = Except.error e →
      (store.CreatePaymentRequest request).result = none ∧
      (store.CreatePaymentRequest request).err = some e) ∧
    (store.DoRequest ⟨"GET", "payment-requests/" ++ id, none⟩ = Except.error e →
      (store.GetPaymentRequest id).result = none ∧
      (store.GetPaymentRequest id).err = some e) := by
  constructor
  · intro hm hd
    unfold Store.CreatePaymentRequest
    rw [hm]; simp [hd]
  · intro hd
    unfold Store.GetPaymentRequest
    simp [hd]

/-- C6 at a concrete input: a transport failing with `External 7`. -/
theorem C6_transport_error_witness :
    ((failingStore (Error.External 7)).CreatePaymentRequest (some sampleRequest)).result = none ∧
    ((failingStore (Error.External 7)).CreatePaymentRequest (some sampleRequest)).err =
      some (Error.External 7) ∧
    ((failingStore (Error.External 7)).GetPaymentRequest "abc").result = none ∧
    ((failingStore (Error.External 7)).GetPaymentRequest "abc").err = some (Error.External 7) := by
  have h := C6_transport_error (failingStore (Error.External 7)) (some sampleRequest) "abc"
    (encodeObject (requestMembers sampleRequest)) (Error.External 7)
  exact ⟨(h.1 (by decide!) rfl).1, (h.1 (by decide!) rfl).2, (h.2 rfl).1, (h.2 rfl).2⟩

theorem storeField_decodeError (f : Field) (v : JSON) (pr : PaymentRequest) (e : Error)
    (h : (storeField f v pr).2 = some e) : e.isDecodeError = true := by
  unfold storeField at h
  cases v <;> cases hk : f.kind <;> simp only [hk] at h
  all_goals first
    | (simp at h; done)
    | (simp at h; subst h; rfl)
    | (split at h <;> simp at h; subst h; rfl)

theorem decodeMembers_decodeError (ms : List (String × JSON)) :
    ∀ (pr : PaymentRequest) (saved : Option Error) (e : Error),
      (∀ e0, saved = some e0 → e0.isDecodeError = true) →
      (decodeMembers ms pr saved).2 = some e → e.isDecodeError = true := by
  induction ms with
  | nil => intro pr saved e hs h; exact hs e h
  | cons kv ms ih =>
    intro pr saved e hs h
    obtain ⟨k, v⟩ := kv
    unfold decodeMembers at h
    cases hf : findField k with
    | none => rw [hf] at h; exact ih pr saved e hs h
    | some f =>
      rw [hf] at h
      refine ih _ _ e ?_ h
      intro e0 h0
      cases saved with
      | some e1 => simp [saveError] at h0; subst h0; exact hs e1 rfl
      | none => exact storeField_decodeError f v pr e0 (by simpa [saveError] using h0)

/-- Every error of `json.Unmarshal` is a syntax error or a type error. -/
theorem Unmarshal_decodeError (data : String) (pr : PaymentRequest) (e : Error)
    (h : (Unmarshal data pr).2 = some e) : e.isDecodeError = true := by
  unfold Unmarshal at h
  split at h
  all_goals first
    | (simp at h; done)
    | (simp at h; subst h; rfl)
    | exact decodeMembers_decodeError _ _ _ _ (by simp) h

/-- C3 as stated fails: on a status-200 body whose amount has the wrong JSON
type both operations return a non-nil, partially populated `PaymentRequest`
(the identifier is set) together with a non-nil error. -/
theorem C3_counterexample :
    ((stubStore 200 partialBody).GetPaymentRequest "abc").result =
      some { PaymentRequest.zero with ID := "abc" } ∧
    ((stubStore 200 partialBody).GetPaymentRequest "abc").err =
      some (Error.UnmarshalTypeError "string") ∧
    ((stubStore 200 partialBody).CreatePaymentRequest (some sampleRequest)).result =
      some { PaymentRequest.zero with ID := "abc" } ∧
    ((stubStore 200 partialBody).CreatePaymentRequest (some sampleRequest)).err =
      some (Error.UnmarshalTypeError "string") := by
  decide!

/-- C3, amended. Every call of `CreatePaymentRequest` or `GetPaymentRequest`
returns an error with a nil result, or a result with a nil error, except when
a status-200 body fails to decode: then the non-nil `PaymentRequest` that
`json.Unmarshal` was filling is returned together with the decode error (a
syntax or type error). A nil result never comes with a nil error. -/
theorem C3_result_or_error (store : Store) (request : Option PaymentRequestRequest)
    (id : String) :
    (store.CreatePaymentRequest request).Allowed store ∧
    (store.GetPaymentRequest id).Allowed store := by
  constructor
  · unfold Store.CreatePaymentRequest
    cases Marshal request with
    | error e => left; simp
    | ok payload =>
      simp only []
      cases hd : store.DoRequest ⟨"POST", "payment-requests", some payload⟩ with
      | error e => left; simp
      | ok resp =>
        simp only []
        cases hb : resp.Body with
        | error e => left; simp
        | ok body =>
          simp only []
          by_cases h200 : resp.StatusCode = 200
          · simp only [h200, if_true]
            cases hu : (Unmarshal body PaymentRequest.zero).2 with
            | none => right; left; simp
            | some e =>
              right; right
              exact ⟨_, resp, body, e, rfl, hd, h200, hb, rfl, hu, rfl,
                Unmarshal_decodeError _ _ _ hu⟩
          · left
            simp only [h200, if_false]
            repeat' split
            all_goals simp
  · unfold Store.GetPaymentRequest
    cases hd : store.DoRequest ⟨"GET", "payment-requests/" ++ id, none⟩ with
    | error e => left; simp
    | ok resp =>
      simp only []
      cases hb : resp.Body with
      | error e => left; simp
      | ok body =>
        simp only []
        by_cases h200 : resp.StatusCode = 200
        · simp only [h200, if_true]
          cases hu : (Unmarshal body PaymentRequest.zero).2 with
          | none => right; left; simp
          | some e =>
            right; right
            exact ⟨_, resp, body, e, rfl, hd, h200, hb, rfl, hu, rfl,
              Unmarshal_decodeError _ _ _ hu⟩
        · left
          simp only [h200, if_false]
          repeat' split
          all_goals simp

theorem storeField_err_eq_none (f : Field) (v : JSON) (pr : PaymentRequest) :
    (storeField f v pr).2 = none ↔ (v.isNull || typeMatches f.kind v) = true := by
  unfold storeField
  cases v <;> cases hk : f.kind <;> simp [JSON.isNull, typeMatches, hk]
  case number.float64 lit =>
    cases ParseFloat lit.data <;> simp

theorem decodeMembers_err_eq_none (ms : List (String × JSON)) :
    ∀ (pr : PaymentRequest) (saved : Option Error),
      (decodeMembers ms pr saved).2 = none ↔ (saved = none ∧ membersAccepted ms = true) := by
  induction ms with
  | nil => intro pr saved; simp [decodeMembers, membersAccepted]
  | cons kv ms ih =>
    intro pr saved
    obtain ⟨k, v⟩ := kv
    unfold decodeMembers
    cases hf : findField k with
    | none =>
      simp only []
      rw [ih]
      simp [membersAccepted, hf]
    | some f =>
      simp only []
      rw [ih]
      have hs := storeField_err_eq_none f v pr
      cases saved with
      | some e => simp [saveError]
      | none =>
        simp only [saveError, true_and]
        rw [hs]
        simp [membersAccepted, hf]

theorem wellShaped_membersAccepted (ms : List (String × JSON)) (h : wellShaped ms = true) :
    membersAccepted ms = true := by
  unfold wellShaped at h
  unfold membersAccepted
  rw [List.all_eq_true] at h ⊢
  intro kv hkv
  have := h kv hkv
  split <;> simp_all

theorem storeField_get (f : Field) (v : JSON) (pr : PaymentRequest)
    (h : typeMatches f.kind v = true) (g : Field) :
    ((storeField f v pr).1.get g) =
      if g = f then (valueOf v).getD (PaymentRequest.zero.get g) else pr.get g := by
  cases v with
  | null => cases f <;> simp [typeMatches, Field.kind] at h
  | array es => cases f <;> simp [typeMatches, Field.kind] at h
  | object ms => cases f <;> simp [typeMatches, Field.kind] at h
  | bool b =>
    cases f <;> simp [typeMatches, Field.kind] at h <;>
      cases g <;> simp [storeField, Field.kind, setBool, PaymentRequest.get, valueOf]
  | string x =>
    cases f <;> simp [typeMatches, Field.kind] at h <;>
      cases g <;> simp [storeField, Field.kind, setString, PaymentRequest.get, valueOf]
  | number lit =>
    cases f <;> simp [typeMatches, Field.kind] at h
    obtain ⟨x, hx⟩ := Option.isSome_iff_exists.1 h
    cases g <;> simp [storeField, Field.kind, setFloat, PaymentRequest.get, valueOf, hx]

theorem decodeMembers_get (ms : List (String × JSON)) :
    ∀ (pr : PaymentRequest) (saved : Option Error) (g : Field), wellShaped ms = true →
      (decodeMembers ms pr saved).1.get g =
        match lookupField g ms with
        | some v => (valueOf v).getD (PaymentRequest.zero.get g)
        | none => pr.get g := by
  induction ms with
  | nil => intro pr saved g _; simp [decodeMembers, lookupField]
  | cons kv ms ih =>
    intro pr saved g hw
    obtain ⟨k, v⟩ := kv
    have hw1 : wellShaped ms = true := by
      simp only [wellShaped, List.all_cons, Bool.and_eq_true] at hw ⊢
      exact hw.2
    unfold decodeMembers lookupField
    cases hf : findField k with
    | none =>
      simp only []
      rw [ih pr saved g hw1]
      cases lookupField g ms <;> simp
    | some f =>
      have hv : typeMatches f.kind v = true := by
        simp only [wellShaped, List.all_cons, Bool.and_eq_true, hf] at hw
        exact hw.1
      simp only []
      rw [ih _ _ g hw1]
      cases lookupField g ms with
      | some w => simp
      | none =>
        simp only [storeField_get f v pr hv g]
        by_cases hgf : g = f
        · subst hgf; simp
        · have : ¬ (f = g) := fun h => hgf h.symm
          simp [hgf, this]

theorem get_ext (p q : PaymentRequest) (h : ∀ f, p.get f = q.get f) : p = q := by
  have h1 := h Field.AllowCustomPaymentAmounts
  have h2 := h Field.Amount
  have h3 := h Field.Currency
  have h4 := h Field.CustomCSSLink
  have h5 := h Field.Description
  have h6 := h Field.Email
  have h7 := h Field.EmbeddedCSS
  have h8 := h Field.ExpiryDate
  have h9 := h Field.Title
  have h10 := h Field.Archived
  have h11 := h Field.Created
  have h12 := h Field.ID
  have h13 := h Field.Status
  simp only [PaymentRequest.get, Value.bool.injEq, Value.float64.injEq, Value.string.injEq]
    at h1 h2 h3 h4 h5 h6 h7 h8 h9 h10 h11 h12 h13
  obtain ⟨⟨a1, a2, a3, a4, a5, a6, a7, a8, a9⟩, a10, a11, a12, a13⟩ := p
  obtain ⟨⟨b1, b2, b3, b4, b5, b6, b7, b8, b9⟩, b10, b11, b12, b13⟩ := q
  simp only at h1 h2 h3 h4 h5 h6 h7 h8 h9 h10 h11 h12 h13
  subst h1 h2 h3 h4 h5 h6 h7 h8 h9 h10 h11 h12 h13
  rfl

/-! ## Serialization (C8) -/

theorem isDigit_ofNat (d : Nat) (h : d < 10) : isDigit (Char.ofNat (48 + d)) = true := by
  interval_cases d <;> decide

theorem digitsAux_digits (fuel : Nat) : ∀ (n : Nat) (acc : List Char),
    (∀ c ∈ acc, isDigit c = true) → ∀ c ∈ digitsAux fuel n acc, isDigit c = true := by
  induction fuel with
  | zero => intro n acc h; simpa [digitsAux] using h
  | succ fuel ih =>
    intro n acc h
    unfold digitsAux
    split
    · intro c hc
      rcases List.mem_cons.1 hc with rfl | hc
      · exact isDigit_ofNat n (by omega)
      · exact h c hc
    · apply ih
      intro c hc
      rcases List.mem_cons.1 hc with rfl | hc
      · exact isDigit_ofNat (n % 10) (Nat.mod_lt _ (by decide))
      · exact h c hc

theorem natDigits_digits (n : Nat) : ∀ c ∈ natDigits n, isDigit c = true :=
  digitsAux_digits (n + 1) n [] (by simp)

theorem fmtF_chars (neg : Bool) (ds : List Char) (dp : Int)
    (h : ∀ c ∈ ds, isDigit c = true) : ∀ c ∈ fmtF neg ds dp, isNumberChar c = true := by
  intro c hc
  unfold fmtF at hc
  simp only [List.mem_append] at hc
  rcases hc with (hc | hc) | hc
  · split at hc
    · simp at hc; subst hc; decide
    · simp at hc
  · split at hc
    · rcases List.mem_append.1 hc with hc | hc
      · simp [isNumberChar, h c (List.mem_of_mem_take hc)]
      · rw [List.mem_replicate] at hc; rw [hc.2]; decide
    · simp at hc; subst hc; decide
  · split at hc
    · rcases List.mem_cons.1 hc with rfl | hc
      · decide
      · rcases List.mem_append.1 hc with hc | hc
        · rw [List.mem_replicate] at hc; rw [hc.2]; decide
        · simp [isNumberChar, h c (List.mem_of_mem_drop hc)]
    · simp at hc

theorem fmtE_chars (neg : Bool) (ds : List Char) (dp : Int)
    (h : ∀ c ∈ ds, isDigit c = true) : ∀ c ∈ fmtE neg ds dp, isNumberChar c = true := by
  intro c hc
  unfold fmtE at hc
  simp only [List.mem_append] at hc
  rcases hc with (((hc | hc) | hc) | hc) | hc
  · split at hc
    · simp at hc; subst hc; decide
    · simp at hc
  · simp only [List.mem_singleton] at hc
    subst hc
    cases ds with
    | nil => decide
    | cons d ds => simp [isNumberChar, h d (List.mem_cons_self _ _)]
  · split at hc
    · rcases List.mem_cons.1 hc with rfl | hc
      · decide
      · simp [isNumberChar, h c (List.mem_of_mem_tail hc)]
    · simp at hc
  · simp only [List.mem_cons, List.mem_singleton, List.not_mem_nil, or_false] at hc
    rcases hc with rfl | rfl
    · decide
    · split <;> decide
  · split at hc
    · rcases List.mem_cons.1 hc with rfl | hc
      · decide
      · simp [isNumberChar, natDigits_digits _ c hc]
    · simp [isNumberChar, natDigits_digits _ c hc]

theorem cleanExp_chars (b : List Char) (h : ∀ c ∈ b, isNumberChar c = true) :
    ∀ c ∈ cleanExp b, isNumberChar c = true := by
  intro c hc
  unfold cleanExp at hc
  split at hc
  · rename_i d r hr
    have hb : ∀ x ∈ b.reverse, isNumberChar x = true := fun x hx => h x (List.mem_reverse.1 hx)
    rw [hr] at hb
    rw [List.mem_reverse] at hc
    simp only [List.mem_cons] at hc
    rcases hc with rfl | rfl | rfl | hc
    · exact hb _ (by simp)
    · decide
    · decide
    · exact hb _ (by simp [hc])
  · exact h c hc

/-- A float64 is written with digits, signs, a point and `e` only. -/
theorem encodeFloat_chars (f : Float64) : ∀ c ∈ encodeFloat f, isNumberChar c = true := by
  unfold encodeFloat
  simp only []
  split
  · exact fmtF_chars _ _ _ (by simp)
  · split
    · exact cleanExp_chars _ (fmtE_chars _ _ _ (natDigits_digits _))
    · exact fmtF_chars _ _ _ (natDigits_digits _)

theorem mem_optional (k name : String) (c : Prop) [Decidable c] :
    k ∈ (if c then [] else [name]) ↔ (¬ c ∧ k = name) := by
  by_cases h : c <;> simp [h]

theorem mem_flag (k name : String) (b : Bool) :
    k ∈ (if b = true then [name] else []) ↔ (b = true ∧ k = name) := by
  cases b <;> simp

theorem requestMembers_keys (r : PaymentRequestRequest) :
    (requestMembers r).map Prod.fst =
      (if r.AllowCustomPaymentAmounts = true then ["allowCustomPaymentAmounts"] else []) ++
      ["amount", "currency"] ++
      (if r.CustomCSSLink = "" then [] else ["customCSSLink"]) ++
      (if r.Description = "" then [] else ["description"]) ++
      (if r.Email = "" then [] else ["email"]) ++
      (if r.EmbeddedCSS = "" then [] else ["embeddedCSS"]) ++
      (if r.ExpiryDate = "" then [] else ["expiryDate"]) ++
      ["title"] := by
  unfold requestMembers
  simp only [List.map_append, List.map_cons, List.map_nil, apply_ite (List.map Prod.fst)]

/-! ## Float formatting converts back -/

theorem log2Aux_spec : ∀ (fuel n : Nat), 0 < n → n ≤ fuel →
    2 ^ log2Aux fuel n ≤ n ∧ n < 2 ^ (log2Aux fuel n + 1) := by
  intro fuel
  induction fuel with
  | zero => intro n h0 h1; omega
  | succ fuel ih =>
    intro n h0 h1
    unfold log2Aux
    by_cases h2 : n < 2
    · simp only [h2, if_true]
      have : n = 1 := by omega
      subst this
      simp
    · simp only [h2, if_false]
      obtain ⟨ha, hb⟩ := ih (n / 2) (by omega) (by omega)
      rw [pow_succ] at hb ⊢
      rw [pow_succ]
      constructor <;> omega

theorem geTwoPow_iff (num den : Nat) (b : Int) (hden : 0 < den) :
    geTwoPow num den b = true ↔ (2 : ℚ) ^ b ≤ (num : ℚ) / den := by
  have hd : (0 : ℚ) < den := by exact_mod_cast hden
  cases b with
  | ofNat k =>
    simp only [geTwoPow, decide_eq_true_eq, Int.ofNat_eq_coe, zpow_natCast]
    rw [le_div_iff₀ hd]
    constructor
    · intro h
      have : ((den * 2 ^ k : Nat) : ℚ) ≤ num := by exact_mod_cast h
      push_cast at this
      linarith
    · intro h
      have : ((2 ^ k * den : Nat) : ℚ) ≤ num := by push_cast; exact h
      have := Nat.cast_le.1 this
      linarith
  | negSucc k =>
    simp only [geTwoPow, decide_eq_true_eq, zpow_negSucc]
    have hp : (0 : ℚ) < 2 ^ (k + 1) := by positivity
    rw [le_div_iff₀ hd, inv_mul_le_iff₀ hp]
    constructor
    · intro h
      have : ((den : Nat) : ℚ) ≤ ((num * 2 ^ (k + 1) : Nat) : ℚ) := by exact_mod_cast h
      push_cast at this
      linarith
    · intro h
      have : ((den : Nat) : ℚ) ≤ ((2 ^ (k + 1) * num : Nat) : ℚ) := by push_cast; exact h
      have := Nat.cast_le.1 this
      linarith

theorem floorLog2_spec (num den : Nat) (hnum : 0 < num) (hden : 0 < den) :
    (2 : ℚ) ^ floorLog2 num den ≤ (num : ℚ) / den ∧
    (num : ℚ) / den < (2 : ℚ) ^ (floorLog2 num den + 1) := by
  obtain ⟨hn1, hn2⟩ := log2Aux_spec num num hnum le_rfl
  obtain ⟨hd1, hd2⟩ := log2Aux_spec den den hden le_rfl
  have hd : (0 : ℚ) < den := by exact_mod_cast hden
  have hn1q : (2 : ℚ) ^ (log2Aux num num : Int) ≤ num := by
    rw [zpow_natCast]; exact_mod_cast hn1
  have hn2q : (num : ℚ) < (2 : ℚ) ^ ((log2Aux num num : Int) + 1) := by
    have : (num : ℚ) < (2 : ℚ) ^ (log2Aux num num + 1) := by exact_mod_cast hn2
    rw [← zpow_natCast] at this
    push_cast at this
    exact this
  have hd1q : (2 : ℚ) ^ (log2Aux den den : Int) ≤ den := by
    rw [zpow_natCast]; exact_mod_cast hd1
  have hd2q : (den : ℚ) < (2 : ℚ) ^ ((log2Aux den den : Int) + 1) := by
    have : (den : ℚ) < (2 : ℚ) ^ (log2Aux den den + 1) := by exact_mod_cast hd2
    rw [← zpow_natCast] at this
    push_cast at this
    exact this
  have h2 : (2 : ℚ) ≠ 0 := by norm_num
  -- the quotient lies strictly between 2 ^ (b - 1) and 2 ^ (b + 1)
  have hup : (num : ℚ) / den <
      (2 : ℚ) ^ ((log2Aux num num : Int) - (log2Aux den den : Int) + 1) := by
    rw [div_lt_iff₀ hd]
    have e : (2 : ℚ) ^ ((log2Aux num num : Int) - (log2Aux den den : Int) + 1) =
        (2 : ℚ) ^ ((log2Aux num num : Int) + 1) / (2 : ℚ) ^ (log2Aux den den : Int) := by
      rw [← zpow_sub₀ h2]; congr 1; ring
    rw [e, div_mul_eq_mul_div, lt_div_iff₀ (by positivity)]
    calc (num : ℚ) * (2 : ℚ) ^ (log2Aux den den : Int)
        ≤ num * den := by gcongr
      _ < (2 : ℚ) ^ ((log2Aux num num : Int) + 1) * den := by gcongr
  have hlow : (2 : ℚ) ^ ((log2Aux num num : Int) - (log2Aux den den : Int) - 1) ≤
      (num : ℚ) / den := by
    rw [le_div_iff₀ hd]
    have e : (2 : ℚ) ^ ((log2Aux num num : Int) - (log2Aux den den : Int) - 1) =
        (2 : ℚ) ^ (log2Aux num num : Int) / (2 : ℚ) ^ ((log2Aux den den : Int) + 1) := by
      rw [← zpow_sub₀ h2]; congr 1; ring
    rw [e, div_mul_eq_mul_div, div_le_iff₀ (by positivity)]
    calc (2 : ℚ) ^ (log2Aux num num : Int) * den
        ≤ num * den := by gcongr
      _ ≤ num * (2 : ℚ) ^ ((log2Aux den den : Int) + 1) := by gcongr
  unfold floorLog2
  simp only []
  generalize (log2Aux num num : Int) - (log2Aux den den : Int) = b at hup hlow ⊢
  have hnot : geTwoPow num den (b + 1) = false := by
    by_contra hcon
    have := (geTwoPow_iff num den (b + 1) hden).1 (by simpa using hcon)
    linarith
  simp only [hnot, Bool.false_eq_true, if_false]
  by_cases hb : geTwoPow num den b = true
  · simp only [hb, if_true]
    exact ⟨(geTwoPow_iff num den b hden).1 hb, hup⟩
  · have hb1 : geTwoPow num den b = false := by simpa using hb
    simp only [hb1, Bool.false_eq_true, if_false]
    refine ⟨hlow, ?_⟩
    have : ¬ (2 : ℚ) ^ b ≤ (num : ℚ) / den := fun h => hb ((geTwoPow_iff num den b hden).2 h)
    have e : b - 1 + 1 = b := by ring
    rw [e]
    exact lt_of_not_le this

theorem floorLog2_unique (num den : Nat) (t : Int) (hnum : 0 < num) (hden : 0 < den)
    (h1 : (2 : ℚ) ^ t ≤ (num : ℚ) / den) (h2 : (num : ℚ) / den < (2 : ℚ) ^ (t + 1)) :
    floorLog2 num den = t := by
  obtain ⟨s1, s2⟩ := floorLog2_spec num den hnum hden
  have a : t < floorLog2 num den + 1 :=
    (zpow_lt_zpow_iff_right₀ (by norm_num : (1 : ℚ) < 2)).1 (lt_of_le_of_lt h1 s2)
  have b : floorLog2 num den < t + 1 :=
    (zpow_lt_zpow_iff_right₀ (by norm_num : (1 : ℚ) < 2)).1 (lt_of_le_of_lt s1 h2)
  omega

theorem roundToFloat64_exact (neg : Bool) (num den m : Nat) (e : Int) (hden : 0 < den)
    (hm0 : 0 < m) (hm : m < 2 ^ 53) (he0 : -1074 ≤ e) (he1 : e ≤ 971)
    (hcanon : 2 ^ 52 ≤ m ∨ e = -1074) (hval : (num : ℚ) / den = m * (2 : ℚ) ^ e) :
    roundToFloat64 neg num den =
      some (if m < 2 ^ 52 then Float64.pack neg 0 m
            else Float64.pack neg (e + 1075).toNat (m - 2 ^ 52)) := by
  have hd : (0 : ℚ) < den := by exact_mod_cast hden
  have hmq : (0 : ℚ) < m := by exact_mod_cast hm0
  have h2e : (0 : ℚ) < (2 : ℚ) ^ e := by positivity
  have hnum : 0 < num := by
    rcases Nat.eq_zero_or_pos num with h | h
    · rw [h] at hval
      simp only [Nat.cast_zero, zero_div] at hval
      have : (0 : ℚ) < m * (2 : ℚ) ^ e := by positivity
      linarith
    · exact h
  obtain ⟨hl1, hl2⟩ := log2Aux_spec m m hm0 le_rfl
  generalize hL : log2Aux m m = L at hl1 hl2
  have hL52 : L ≤ 52 := by
    by_contra hcon
    have : 2 ^ 53 ≤ 2 ^ L := Nat.pow_le_pow_right (by norm_num) (by omega)
    omega
  have hl1q : (2 : ℚ) ^ (L : Int) ≤ m := by rw [zpow_natCast]; exact_mod_cast hl1
  have hl2q : (m : ℚ) < (2 : ℚ) ^ ((L : Int) + 1) := by
    have : (m : ℚ) < (2 : ℚ) ^ (L + 1) := by exact_mod_cast hl2
    rw [← zpow_natCast] at this
    push_cast at this
    exact this
  have h20 : (2 : ℚ) ≠ 0 := by norm_num
  have ht : floorLog2 num den = e + L := by
    apply floorLog2_unique num den (e + L) hnum hden
    · rw [hval, zpow_add₀ h20, mul_comm]
      gcongr
    · rw [hval, add_assoc, zpow_add₀ h20, mul_comm]
      gcongr
  have hmax : max (e + (L : Int) - 52) (-1074) = e := by
    rcases hcanon with h | h
    · have : 52 ≤ L := by
        by_contra hcon
        have : 2 ^ (L + 1) ≤ 2 ^ 52 := Nat.pow_le_pow_right (by norm_num) (by omega)
        omega
      have : L = 52 := by omega
      subst this
      simp only [Nat.cast_ofNat, add_sub_cancel_right]
      exact max_eq_left he0
    · subst h
      apply max_eq_right
      omega
  have hscale : (if 0 ≤ e then num else num * 2 ^ (-e).toNat) =
      m * (if 0 ≤ e then den * 2 ^ e.toNat else den) := by
    by_cases h0 : 0 ≤ e
    · simp only [h0, if_true]
      have he : (2 : ℚ) ^ e = ((2 ^ e.toNat : Nat) : ℚ) := by
        rw [Nat.cast_pow, ← zpow_natCast, Int.toNat_of_nonneg h0]; norm_num
      rw [he, div_eq_iff (ne_of_gt hd)] at hval
      have : ((num : Nat) : ℚ) = ((m * (den * 2 ^ e.toNat) : Nat) : ℚ) := by
        push_cast at hval ⊢; rw [hval]; ring
      exact Nat.cast_injective this
    · simp only [h0, if_false]
      have hneg : e = -((-e).toNat : Int) := by
        rw [Int.toNat_of_nonneg (by omega)]; ring
      have he : (2 : ℚ) ^ e = (((2 ^ (-e).toNat : Nat) : ℚ))⁻¹ := by
        rw [Nat.cast_pow, ← zpow_natCast, ← zpow_neg, ← hneg]; norm_num
      have hp : (0 : ℚ) < ((2 ^ (-e).toNat : Nat) : ℚ) := by positivity
      rw [he, div_eq_iff (ne_of_gt hd)] at hval
      have : ((num * 2 ^ (-e).toNat : Nat) : ℚ) = ((m * den : Nat) : ℚ) := by
        push_cast at hval ⊢
        rw [hval]
        field_simp
      exact Nat.cast_injective this
  have hd1 : 0 < (if 0 ≤ e then den * 2 ^ e.toNat else den) := by
    split
    · positivity
    · exact hden
  unfold roundToFloat64
  simp only [Nat.ne_of_gt hnum, if_false, ht, hmax, hscale]
  generalize (if 0 ≤ e then den * 2 ^ e.toNat else den) = d1 at hd1
  rw [Nat.mul_div_cancel _ hd1, Nat.mul_mod_left]
  have c1 : ¬ (d1 < 2 * 0 ∨ 2 * 0 = d1 ∧ m % 2 = 1) := by omega
  have c2 : ¬ m = 2 ^ 53 := by omega
  simp only [c1, if_false, c2]
  by_cases hsub : m < 2 ^ 52
  · simp only [hsub, if_true]
  · have c3 : ¬ (971 : Int) < e := by omega
    simp only [hsub, if_false, c3]

theorem pack_fields (f : Float64) : Float64.pack f.neg f.expField f.frac = f := by
  obtain ⟨⟨b, hb⟩⟩ := f
  simp only [Float64.pack, Float64.neg, Float64.expField, Float64.frac, Float64.mk.injEq]
  apply Fin.ext
  simp only [Fin.ofNat, decide_eq_true_eq]
  split <;> omega

theorem exactDecimal_converts (f : Float64) (hfin : f.expField ≠ 2047) :
    decimalToFloat64 f.neg (exactDecimal f).1 (exactDecimal f).2 = some f := by
  have hfrac : f.frac < 2 ^ 52 := Nat.mod_lt _ (by norm_num)
  have hexp : f.expField < 2048 := Nat.mod_lt _ (by norm_num)
  by_cases hm0 : f.mant = 0
  · have h0 : f.expField = 0 ∧ f.frac = 0 := by
      unfold Float64.mant at hm0
      split at hm0
      · exact ⟨by assumption, hm0⟩
      · omega
    have hf : Float64.pack f.neg 0 0 = f := by
      have := pack_fields f
      rw [h0.1, h0.2] at this
      exact this
    unfold decimalToFloat64 exactDecimal
    rw [hm0]
    split <;> split <;> simp [roundToFloat64, hf]
  · have hmpos : 0 < f.mant := Nat.pos_of_ne_zero hm0
    have key : ∀ num den : Nat, 0 < den → (num : ℚ) / den = f.mant * (2 : ℚ) ^ f.exp2 →
        roundToFloat64 f.neg num den = some f := by
      intro num den hden hval
      have hm : f.mant < 2 ^ 53 := by
        unfold Float64.mant; split <;> omega
      have he0 : -1074 ≤ f.exp2 := by
        unfold Float64.exp2; split <;> omega
      have he1 : f.exp2 ≤ 971 := by
        unfold Float64.exp2; split <;> omega
      have hcanon : 2 ^ 52 ≤ f.mant ∨ f.exp2 = -1074 := by
        unfold Float64.mant Float64.exp2
        split
        · right; rfl
        · left; omega
      rw [roundToFloat64_exact f.neg num den f.mant f.exp2 hden hmpos hm he0 he1 hcanon hval]
      congr 1
      have hp := pack_fields f
      unfold Float64.mant Float64.exp2
      by_cases hz : f.expField = 0
      · simp only [hz, if_true, hfrac]
        rw [hz] at hp
        exact hp
      · have c : ¬ f.frac + 2 ^ 52 < 2 ^ 52 := by omega
        simp only [hz, if_false, c]
        have e1 : ((f.expField : Int) - 1075 + 1075).toNat = f.expField := by
          simp
        have e2 : f.frac + 2 ^ 52 - 2 ^ 52 = f.frac := by omega
        rw [e1, e2]
        exact hp
    unfold decimalToFloat64 exactDecimal
    by_cases he : 0 ≤ f.exp2
    · simp only [he, if_true, le_refl]
      apply key _ _ (by positivity)
      have : (2 : ℚ) ^ f.exp2 = ((2 ^ f.exp2.toNat : Nat) : ℚ) := by
        rw [Nat.cast_pow, ← zpow_natCast, Int.toNat_of_nonneg he]; norm_num
      rw [this]
      push_cast
      simp
    · have hneg : (0 : Int) ≤ -f.exp2 := by omega
      simp only [he, if_false, hneg, if_true]
      apply key _ _ (by positivity)
      have hk : f.exp2 = -((-f.exp2).toNat : Int) := by
        rw [Int.toNat_of_nonneg hneg]; ring
      generalize (-f.exp2).toNat = k at hk
      rw [hk, zpow_neg, zpow_natCast]
      push_cast
      have h10 : (10 : ℚ) ^ k = 2 ^ k * 5 ^ k := by
        rw [← mul_pow]; norm_num
      rw [h10]
      field_simp
      ring

theorem pickDecimal_converts (f : Float64) (lo hi : Nat × Int) (loNearer : Bool)
    (rest : Nat × Int) (h : decimalToFloat64 f.neg rest.1 rest.2 = some f) :
    decimalToFloat64 f.neg (pickDecimal f lo hi loNearer rest).1
      (pickDecimal f lo hi loNearer rest).2 = some f := by
  unfold pickDecimal
  by_cases h1 : decimalToFloat64 f.neg lo.1 lo.2 = some f
  · by_cases h2 : decimalToFloat64 f.neg hi.1 hi.2 = some f
    · cases loNearer <;> simp [h1, h2]
    · simp [h1, h2]
  · by_cases h2 : decimalToFloat64 f.neg hi.1 hi.2 = some f
    · simp [h1, h2]
    · simp [h1, h2, h]

theorem shortestFrom_converts (f : Float64) (hfin : f.IsFinite) (num den : Nat) (p : Int) :
    ∀ fuel n : Nat,
      decimalToFloat64 f.neg (shortestFrom f num den p fuel n).1
        (shortestFrom f num den p fuel n).2 = some f := by
  intro fuel
  induction fuel with
  | zero => intro n; exact exactDecimal_converts f hfin
  | succ fuel ih =>
    intro n
    unfold shortestFrom
    exact pickDecimal_converts f _ _ _ _ (ih (n + 1))

/-! ### Digits -/

theorem toNat_ofNat_digit (d : Nat) (h : d < 10) : (Char.ofNat (48 + d)).toNat = 48 + d := by
  interval_cases d <;> rfl

theorem foldl_digits (l : List Char) : ∀ init : Nat,
    l.foldl (fun acc c => acc * 10 + (c.toNat - 48)) init =
      init * 10 ^ l.length + digitsValue l := by
  induction l with
  | nil => intro init; simp [digitsValue]
  | cons c l ih =>
    intro init
    simp only [List.foldl_cons, List.length_cons, digitsValue]
    rw [ih, ih (0 * 10 + (c.toNat - 48))]
    ring

theorem digitsValue_cons (c : Char) (l : List Char) :
    digitsValue (c :: l) = (c.toNat - 48) * 10 ^ l.length + digitsValue l := by
  have := foldl_digits l (0 * 10 + (c.toNat - 48))
  simp only [digitsValue, List.foldl_cons] at this ⊢
  rw [this]
  simp [digitsValue]

theorem digitsValue_append (a b : List Char) :
    digitsValue (a ++ b) = digitsValue a * 10 ^ b.length + digitsValue b := by
  induction a with
  | nil => simp [digitsValue]
  | cons c a ih =>
    simp only [List.cons_append, digitsValue_cons, ih, List.length_append]
    ring

theorem digitsValue_zeros (k : Nat) : digitsValue (List.replicate k '0') = 0 := by
  induction k with
  | zero => rfl
  | succ k ih =>
    rw [List.replicate_succ, digitsValue_cons, ih]
    simp

theorem digitsValue_digitsAux (fuel : Nat) : ∀ (n : Nat) (acc : List Char), n < fuel →
    digitsValue (digitsAux fuel n acc) = n * 10 ^ acc.length + digitsValue acc := by
  induction fuel with
  | zero => intro n acc h; omega
  | succ fuel ih =>
    intro n acc h
    unfold digitsAux
    by_cases h10 : n < 10
    · simp only [h10, if_true, digitsValue_cons, toNat_ofNat_digit n h10]
      simp
    · simp only [h10, if_false]
      rw [ih (n / 10) _ (by omega), digitsValue_cons,
        toNat_ofNat_digit (n % 10) (Nat.mod_lt _ (by norm_num))]
      simp only [List.length_cons, Nat.add_sub_cancel_left, pow_succ]
      have hn : n = 10 * (n / 10) + n % 10 := (Nat.div_add_mod n 10).symm
      generalize n / 10 = q at hn ⊢
      generalize n % 10 = r at hn ⊢
      subst hn
      ring

/-- The digits written for a number denote it. -/
theorem digitsValue_natDigits (n : Nat) : digitsValue (natDigits n) = n := by
  unfold natDigits
  rw [digitsValue_digitsAux (n + 1) n [] (by omega)]
  simp [digitsValue]

theorem digitsAux_head (fuel : Nat) : ∀ (n : Nat) (acc : List Char), 0 < n → n < fuel →
    ∃ c rest, digitsAux fuel n acc = c :: rest ∧ 49 ≤ c.toNat ∧ c.toNat ≤ 57 := by
  induction fuel with
  | zero => intro n acc _ h; omega
  | succ fuel ih =>
    intro n acc h0 h
    unfold digitsAux
    by_cases h10 : n < 10
    · simp only [h10, if_true]
      refine ⟨_, _, rfl, ?_, ?_⟩ <;> rw [toNat_ofNat_digit n h10] <;> omega
    · simp only [h10, if_false]
      exact ih (n / 10) _ (by omega) (by omega)

/-- The digits written for a positive number start with a non-zero digit. -/
theorem natDigits_head (n : Nat) (h : 0 < n) :
    ∃ c rest, natDigits n = c :: rest ∧ 49 ≤ c.toNat ∧ c.toNat ≤ 57 :=
  digitsAux_head (n + 1) n [] h (by omega)

theorem natDigits_ne_nil (n : Nat) : natDigits n ≠ [] := by
  unfold natDigits digitsAux
  split
  · simp
  · intro h
    have := digitsValue_digitsAux n (n / 10) [Char.ofNat (48 + n % 10)] (by omega)
    rw [h] at this
    simp only [digitsValue, List.foldl_nil, List.length_singleton, pow_one] at this
    omega

theorem takeDigits_digits (ds rest : List Char) (hds : ∀ c ∈ ds, isDigit c = true)
    (hrest : ∀ c ∈ rest.head?, isDigit c = false) :
    takeDigits (ds ++ rest) = (ds, rest) := by
  induction ds with
  | nil =>
    cases rest with
    | nil => rfl
    | cons c r =>
      have := hrest c (by simp)
      simp [takeDigits, this]
  | cons d ds ih =>
    have hd := hds d (List.mem_cons_self _ _)
    have := ih (fun c hc => hds c (List.mem_cons_of_mem _ hc))
    simp [takeDigits, hd, this]

/-! ### Number texts -/

theorem exponentText_head (ex : Option (Bool × List Char)) :
    ∀ c ∈ (exponentText ex).head?, c = 'e' := by
  intro c hc
  cases ex with
  | none => simp [exponentText] at hc
  | some p => obtain ⟨eneg, xs⟩ := p; simp [exponentText] at hc; exact hc.symm

theorem tail_head_nondigit (fp : List Char) (ex : Option (Bool × List Char)) :
    ∀ c ∈ ((if fp = [] then [] else '.' :: fp) ++ exponentText ex).head?,
      isDigit c = false := by
  intro c hc
  by_cases hfp : fp = []
  · simp only [hfp, if_true, List.nil_append] at hc
    rw [exponentText_head ex c hc]; decide
  · simp only [hfp, if_false, List.cons_append, List.head?_cons, Option.mem_def,
      Option.some.injEq] at hc
    rw [← hc]; decide

theorem exponent_read (ex : Option (Bool × List Char)) (hex : ExponentOK ex) :
    (match exponentText ex with
      | _ :: '-' :: r => - (digitsValue (takeDigits r).1 : Int)
      | _ :: '+' :: r => (digitsValue (takeDigits r).1 : Int)
      | _ :: r => (digitsValue (takeDigits r).1 : Int)
      | [] => 0) = exponentValue ex := by
  cases ex with
  | none => rfl
  | some p =>
    obtain ⟨eneg, xs⟩ := p
    have hx := (hex eneg xs rfl).2
    have ht : takeDigits xs = (xs, []) := by
      have := takeDigits_digits xs [] hx (by simp)
      simpa using this
    cases eneg <;> simp [exponentText, exponentValue, ht]

/-- What `ParseFloat` makes of a number text. -/
theorem ParseFloat_numberText (neg : Bool) (ip fp : List Char) (ex : Option (Bool × List Char))
    (hip0 : ip ≠ []) (hip : ∀ c ∈ ip, isDigit c = true) (hfp : ∀ c ∈ fp, isDigit c = true)
    (hex : ExponentOK ex) :
    ParseFloat (numberText neg ip fp ex) =
      if 0 ≤ exponentValue ex - (fp.length : Int) then
        roundToFloat64 neg
          (digitsValue (ip ++ fp) * 10 ^ (exponentValue ex - (fp.length : Int)).toNat) 1
      else
        roundToFloat64 neg (digitsValue (ip ++ fp))
          (10 ^ (-(exponentValue ex - (fp.length : Int))).toNat) := by
  obtain ⟨c0, r0, rfl⟩ := List.exists_cons_of_ne_nil hip0
  have hc0 : isDigit c0 = true := hip c0 (List.mem_cons_self _ _)
  have hc0m : c0 ≠ '-' := by rintro rfl; exact absurd hc0 (by decide)
  have hhead : decide ((numberText neg (c0 :: r0) fp ex).head? = some '-') = neg := by
    cases neg <;> simp [numberText, hc0m]
  have hs1 : (if (numberText neg (c0 :: r0) fp ex).head? = some '-' then
      (numberText neg (c0 :: r0) fp ex).tail else numberText neg (c0 :: r0) fp ex) =
      (c0 :: r0) ++ ((if fp = [] then [] else '.' :: fp) ++ exponentText ex) := by
    cases neg <;> simp [numberText, hc0m]
  have hip1 : takeDigits ((c0 :: r0) ++ ((if fp = [] then [] else '.' :: fp) ++ exponentText ex)) =
      (c0 :: r0, (if fp = [] then [] else '.' :: fp) ++ exponentText ex) :=
    takeDigits_digits _ _ hip (tail_head_nondigit fp ex)
  have hfp1 : (match (if fp = [] then [] else '.' :: fp) ++ exponentText ex with
      | '.' :: r => takeDigits r
      | r => ([], r)) = (fp, exponentText ex) := by
    by_cases hf : fp = []
    · subst hf
      simp only [if_true, List.nil_append]
      cases ex with
      | none => rfl
      | some p => obtain ⟨eneg, xs⟩ := p; simp [exponentText]
    · simp only [hf, if_false, List.cons_append]
      exact takeDigits_digits fp _ hfp (fun c hc => by
        rw [exponentText_head ex c hc]; decide)
  unfold ParseFloat
  simp only [hhead, hs1, hip1, hfp1, exponent_read ex hex]

theorem scanExponent_text (acc : List Char) (ex : Option (Bool × List Char))
    (hex : ExponentOK ex) :
    scanExponent acc (exponentText ex) = some (acc ++ exponentText ex, []) := by
  cases ex with
  | none => simp [exponentText, scanExponent]
  | some p =>
    obtain ⟨eneg, xs⟩ := p
    obtain ⟨hne, hx⟩ := hex eneg xs rfl
    have ht : takeDigits xs = (xs, []) := by
      have := takeDigits_digits xs [] hx (by simp)
      simpa using this
    cases eneg <;> simp [exponentText, scanExponent, ht, hne]

theorem scanFraction_text (acc fp : List Char) (ex : Option (Bool × List Char))
    (hfp : ∀ c ∈ fp, isDigit c = true) (hex : ExponentOK ex) :
    scanFraction acc ((if fp = [] then [] else '.' :: fp) ++ exponentText ex) =
      some (acc ++ ((if fp = [] then [] else '.' :: fp) ++ exponentText ex), []) := by
  by_cases hf : fp = []
  · subst hf
    simp only [if_true, List.nil_append]
    have := scanExponent_text acc ex hex
    cases ex with
    | none => simp [exponentText, scanFraction]
    | some p =>
      obtain ⟨eneg, xs⟩ := p
      simp only [exponentText] at this ⊢
      simp only [scanFraction]
      rw [if_neg (by decide)]
      exact this
  · simp only [hf, if_false, List.cons_append, scanFraction, if_true]
    have ht : takeDigits (fp ++ exponentText ex) = (fp, exponentText ex) :=
      takeDigits_digits fp _ hfp (fun c hc => by rw [exponentText_head ex c hc]; decide)
    rw [ht]
    simp only [hf, if_false]
    rw [scanExponent_text _ ex hex]
    simp

/-- A number text is scanned as one number literal. -/
theorem scanNumber_numberText (neg : Bool) (ip fp : List Char)
    (ex : Option (Bool × List Char)) (hip : IntegerOK ip)
    (hfp : ∀ c ∈ fp, isDigit c = true) (hex : ExponentOK ex) :
    scanNumber (numberText neg ip fp ex) = some (numberText neg ip fp ex, []) := by
  have hint : ∀ acc : List Char,
      scanInteger acc (ip ++ ((if fp = [] then [] else '.' :: fp) ++ exponentText ex)) =
        some (acc ++ (ip ++ ((if fp = [] then [] else '.' :: fp) ++ exponentText ex)), []) := by
    intro acc
    rcases hip with rfl | ⟨c, r, rfl, hc1, hc2, hr⟩
    · simp only [List.cons_append, List.nil_append, scanInteger, if_true]
      rw [scanFraction_text _ fp ex hfp hex]
      simp
    · have hc0 : c ≠ '0' := by rintro rfl; exact absurd hc1 (by decide)
      simp only [List.cons_append, scanInteger, hc0, if_false, hc1, hc2, and_self, if_true]
      have ht : takeDigits (r ++ ((if fp = [] then [] else '.' :: fp) ++ exponentText ex)) =
          (r, (if fp = [] then [] else '.' :: fp) ++ exponentText ex) :=
        takeDigits_digits r _ hr (tail_head_nondigit fp ex)
      rw [ht]
      simp only []
      rw [scanFraction_text _ fp ex hfp hex]
      simp
  have hhead : ∃ c r, ip = c :: r ∧ c ≠ '-' := by
    rcases hip with rfl | ⟨c, r, rfl, hc1, _, _⟩
    · exact ⟨'0', [], rfl, by decide⟩
    · exact ⟨c, r, rfl, by rintro rfl; exact absurd hc1 (by decide)⟩
  cases neg with
  | true =>
    simp only [numberText, if_true, List.singleton_append, scanNumber]
    exact hint ['-']
  | false =>
    obtain ⟨c, r, hcr, hcm⟩ := hhead
    have := hint []
    rw [hcr] at this ⊢
    simp only [numberText, Bool.false_eq_true, if_false, List.nil_append, List.cons_append,
      scanNumber, hcm] at this ⊢
    exact this

/-! ### The two layouts -/

theorem decimalToFloat64_eq (neg : Bool) (d : Nat) (s : Int) :
    decimalToFloat64 neg d s =
      if 0 ≤ -s then roundToFloat64 neg (d * 10 ^ (-s).toNat) 1
      else roundToFloat64 neg d (10 ^ (- -s).toNat) := by
  unfold decimalToFloat64
  by_cases h : 0 ≤ s
  · by_cases h0 : s = 0
    · subst h0; simp
    · have : ¬ (0 : Int) ≤ -s := by omega
      simp [h, this]
  · have : (0 : Int) ≤ -s := by omega
    simp [h, this]

theorem fmtF_numberText (neg : Bool) (ds : List Char) (dp : Int) :
    fmtF neg ds dp = numberText neg
      (if 0 < dp then ds.take dp.toNat ++ List.replicate (dp.toNat - ds.length) '0' else ['0'])
      (if dp < (ds.length : Int) then List.replicate (-dp).toNat '0' ++ ds.drop dp.toNat else [])
      none := by
  unfold fmtF numberText
  simp only [exponentText, List.append_nil, List.append_assoc]
  congr 2
  by_cases h : dp < (ds.length : Int)
  · simp only [h, if_true]
    have hne : List.replicate (-dp).toNat '0' ++ List.drop dp.toNat ds ≠ [] := by
      intro hcon
      have hl := congrArg List.length hcon
      simp only [List.length_append, List.length_replicate, List.length_drop,
        List.length_nil] at hl
      omega
    simp [hne]
  · simp [h]

/-- Reading back the `%f` layout of the digits of a positive number. -/
theorem fmtF_reads (neg : Bool) (d : Nat) (hd : 0 < d) (dp : Int) :
    ParseFloat (fmtF neg (natDigits d) dp) =
      decimalToFloat64 neg d (((natDigits d).length : Int) - dp) ∧
    scanNumber (fmtF neg (natDigits d) dp) = some (fmtF neg (natDigits d) dp, []) := by
  obtain ⟨c, r, hcr, hc1, hc2⟩ := natDigits_head d hd
  have hdig := natDigits_digits d
  have hval := digitsValue_natDigits d
  generalize natDigits d = ds at hcr hdig hval
  have hzeros : ∀ k : Nat, ∀ x ∈ List.replicate k '0', isDigit x = true := by
    intro k x hx
    rw [List.mem_replicate] at hx
    rw [hx.2]; decide
  have hI : ∀ x ∈ (if 0 < dp then ds.take dp.toNat ++ List.replicate (dp.toNat - ds.length) '0'
      else ['0']), isDigit x = true := by
    intro x hx
    split at hx
    · rcases List.mem_append.1 hx with h | h
      · exact hdig x (List.mem_of_mem_take h)
      · exact hzeros _ x h
    · simp at hx; subst hx; decide
  have hF : ∀ x ∈ (if dp < (ds.length : Int) then
      List.replicate (-dp).toNat '0' ++ ds.drop dp.toNat else []), isDigit x = true := by
    intro x hx
    split at hx
    · rcases List.mem_append.1 hx with h | h
      · exact hzeros _ x h
      · exact hdig x (List.mem_of_mem_drop h)
    · simp at hx
  have hI0 : (if 0 < dp then ds.take dp.toNat ++ List.replicate (dp.toNat - ds.length) '0'
      else ['0']) ≠ [] := by
    split
    · rw [hcr]
      have : dp.toNat = (dp.toNat - 1) + 1 := by omega
      rw [this]
      simp
    · simp
  have hIok : IntegerOK (if 0 < dp then
      ds.take dp.toNat ++ List.replicate (dp.toNat - ds.length) '0' else ['0']) := by
    split
    · right
      rw [hcr]
      have : dp.toNat = (dp.toNat - 1) + 1 := by omega
      rw [this]
      refine ⟨c, r.take (dp.toNat - 1) ++ List.replicate (dp.toNat - 1 + 1 - (c :: r).length) '0',
        by simp, hc1, hc2, ?_⟩
      intro x hx
      rcases List.mem_append.1 hx with h | h
      · exact hdig x (by rw [hcr]; exact List.mem_cons_of_mem _ (List.mem_of_mem_take h))
      · exact hzeros _ x h
    · left; rfl
  have hexn : ExponentOK none := by intro eneg xs h; simp at h
  rw [fmtF_numberText]
  refine ⟨?_, scanNumber_numberText neg _ _ none hIok hF hexn⟩
  rw [ParseFloat_numberText neg _ _ none hI0 hI hF hexn, decimalToFloat64_eq]
  simp only [exponentValue, zero_sub]
  by_cases hlt : dp < (ds.length : Int)
  · simp only [hlt, if_true]
    have hlen : ((List.replicate (-dp).toNat '0' ++ List.drop dp.toNat ds).length : Int) =
        (ds.length : Int) - dp := by
      simp only [List.length_append, List.length_replicate, List.length_drop]
      omega
    have hv : digitsValue ((if 0 < dp then
        ds.take dp.toNat ++ List.replicate (dp.toNat - ds.length) '0' else ['0']) ++
        (List.replicate (-dp).toNat '0' ++ List.drop dp.toNat ds)) = d := by
      by_cases hpos : 0 < dp
      · have e1 : dp.toNat - ds.length = 0 := by omega
        have e2 : (-dp).toNat = 0 := by omega
        simp only [hpos, if_true, e1, e2, List.replicate_zero, List.append_nil, List.nil_append,
          List.take_append_drop]
        exact hval
      · have e3 : dp.toNat = 0 := by omega
        have e4 : digitsValue ['0'] = 0 := by decide
        simp only [hpos, if_false, e3, List.drop_zero]
        rw [digitsValue_append, digitsValue_append, digitsValue_zeros, e4, hval]
        simp
    rw [hlen, hv]
  · simp only [hlt, if_false, List.append_nil, List.length_nil, Nat.cast_zero, neg_zero, le_refl,
      if_true, Int.toNat_zero, pow_zero, mul_one]
    have hpos : 0 < dp := by
      have : 0 < ds.length := by rw [hcr]; simp
      omega
    have hle : (0 : Int) ≤ -((ds.length : Int) - dp) := by omega
    simp only [hpos, if_true, hle]
    congr 1
    rw [digitsValue_append, digitsValue_zeros, List.take_of_length_le (by omega), hval]
    simp only [List.length_replicate, add_zero]
    congr 2
    omega

theorem fmtE_numberText (neg : Bool) (c : Char) (r : List Char) (dp : Int) :
    fmtE neg (c :: r) dp = numberText neg [c] r
      (some (decide (dp - 1 < 0), exponentDigits (dp - 1).natAbs)) := by
  unfold fmtE numberText exponentText exponentDigits
  simp only [List.headD_cons, List.tail_cons, List.length_cons, List.append_assoc,
    List.singleton_append, List.cons_append, List.nil_append, decide_eq_true_eq]
  congr 2
  cases r with
  | nil => simp
  | cons x r => simp

theorem digitsAux_length (fuel : Nat) : ∀ (n : Nat) (acc : List Char),
    acc.length + 1 ≤ (digitsAux (fuel + 1) n acc).length := by
  induction fuel with
  | zero =>
    intro n acc
    unfold digitsAux
    split
    · simp
    · simp [digitsAux]
  | succ fuel ih =>
    intro n acc
    unfold digitsAux
    split
    · simp
    · have := ih (n / 10) (Char.ofNat (48 + n % 10) :: acc)
      simp only [List.length_cons] at this
      omega

theorem exponentDigits_spec (k : Nat) :
    2 ≤ (exponentDigits k).length ∧ (∀ x ∈ exponentDigits k, isDigit x = true) ∧
    digitsValue (exponentDigits k) = k := by
  unfold exponentDigits
  by_cases h : k < 10
  · simp only [h, if_true]
    refine ⟨?_, ?_, ?_⟩
    · have := List.length_pos.2 (natDigits_ne_nil k)
      simp only [List.length_cons]; omega
    · intro x hx
      rcases List.mem_cons.1 hx with rfl | hx
      · decide
      · exact natDigits_digits k x hx
    · rw [digitsValue_cons, digitsValue_natDigits]
      simp
  · simp only [h, if_false]
    refine ⟨?_, natDigits_digits k, digitsValue_natDigits k⟩
    unfold natDigits digitsAux
    simp only [h, if_false]
    obtain ⟨k1, rfl⟩ : ∃ k1, k = k1 + 1 := ⟨k - 1, by omega⟩
    have := digitsAux_length k1 ((k1 + 1) / 10) [Char.ofNat (48 + (k1 + 1) % 10)]
    simpa using this

/-- The exponent clean-up keeps a number text a number text with the same
exponent. -/
theorem cleanExp_numberText (neg : Bool) (ip fp : List Char) (eneg : Bool) (xs : List Char)
    (hlen : 2 ≤ xs.length) (hxs : ∀ x ∈ xs, isDigit x = true) :
    ∃ ys, cleanExp (numberText neg ip fp (some (eneg, xs))) =
        numberText neg ip fp (some (eneg, ys)) ∧
      ys ≠ [] ∧ (∀ x ∈ ys, isDigit x = true) ∧ digitsValue ys = digitsValue xs := by
  unfold cleanExp
  split
  · rename_i d r hrev
    -- the text ends in `e-0d`
    have hT : numberText neg ip fp (some (eneg, xs)) =
        ((if neg then ['-'] else []) ++ (ip ++ (if fp = [] then [] else '.' :: fp))) ++
          ('e' :: (if eneg then '-' else '+') :: xs) := by
      simp [numberText, exponentText]
    rw [hT, List.reverse_append] at hrev
    simp only [List.reverse_cons, List.append_assoc, List.singleton_append] at hrev
    obtain ⟨x1, x2, more, hx⟩ : ∃ x1 x2 more, xs.reverse = x1 :: x2 :: more := by
      have hl : xs.reverse.length = xs.length := List.length_reverse xs
      cases h1 : xs.reverse with
      | nil =>
        rw [h1] at hl
        simp only [List.length_nil] at hl
        omega
      | cons a t =>
        cases t with
        | nil =>
          rw [h1] at hl
          simp only [List.length_cons, List.length_nil] at hl
          omega
        | cons b t => exact ⟨a, b, t, rfl⟩
    rw [hx] at hrev
    simp only [List.cons_append, List.cons.injEq] at hrev
    obtain ⟨h1, h2, h3⟩ := hrev
    cases more with
    | nil =>
      simp only [List.nil_append, List.cons.injEq] at h3
      obtain ⟨h4, _, h5⟩ := h3
      have hxs2 : xs = ['0', d] := by
        have := congrArg List.reverse hx
        simp only [List.reverse_reverse, List.reverse_cons, List.reverse_nil, List.nil_append,
          List.singleton_append] at this
        rw [this, h1, h2]
      have hd : isDigit d = true := hxs d (by rw [hxs2]; simp)
      have he : eneg = true := by
        cases eneg
        · simp at h4
        · rfl
      refine ⟨[d], ?_, by simp, ?_, ?_⟩
      · rw [← h5]
        simp [numberText, exponentText, he]
      · intro x hx1
        simp only [List.mem_singleton] at hx1
        rw [hx1]; exact hd
      · rw [hxs2, digitsValue_cons, digitsValue_cons]
        simp [digitsValue]
    | cons x3 more =>
      simp only [List.cons_append, List.cons.injEq] at h3
      have : isDigit x3 = true := hxs x3 (by
        rw [← List.mem_reverse, hx]; simp)
      rw [h3.1] at this
      exact absurd this (by decide)
  · exact ⟨xs, rfl, by intro h; rw [h] at hlen; simp at hlen, hxs, rfl⟩

/-- Reading back the `%e` layout, after the exponent clean-up, of the digits of
a positive number. -/
theorem fmtE_reads (neg : Bool) (d : Nat) (hd : 0 < d) (dp : Int) :
    ParseFloat (cleanExp (fmtE neg (natDigits d) dp)) =
      decimalToFloat64 neg d (((natDigits d).length : Int) - dp) ∧
    scanNumber (cleanExp (fmtE neg (natDigits d) dp)) =
      some (cleanExp (fmtE neg (natDigits d) dp), []) := by
  obtain ⟨c, r, hcr, hc1, hc2⟩ := natDigits_head d hd
  have hdig := natDigits_digits d
  have hval := digitsValue_natDigits d
  rw [hcr] at hdig hval ⊢
  obtain ⟨hx1, hx2, hx3⟩ := exponentDigits_spec (dp - 1).natAbs
  obtain ⟨ys, hys, hne, hyd, hyv⟩ := cleanExp_numberText neg [c] r (decide (dp - 1 < 0))
    (exponentDigits (dp - 1).natAbs) hx1 hx2
  rw [fmtE_numberText, hys]
  have hex : ExponentOK (some (decide (dp - 1 < 0), ys)) := by
    intro eneg xs h
    simp only [Option.some.injEq, Prod.mk.injEq] at h
    rw [← h.2]
    exact ⟨hne, hyd⟩
  have hc : ∀ x ∈ [c], isDigit x = true := by
    intro x hx
    simp only [List.mem_singleton] at hx
    rw [hx]; exact hdig c (List.mem_cons_self _ _)
  have hr : ∀ x ∈ r, isDigit x = true := fun x hx => hdig x (List.mem_cons_of_mem _ hx)
  have hIok : IntegerOK [c] := Or.inr ⟨c, [], rfl, hc1, hc2, by simp⟩
  refine ⟨?_, scanNumber_numberText neg [c] r _ hIok hr hex⟩
  rw [ParseFloat_numberText neg [c] r _ (by simp) hc hr hex, decimalToFloat64_eq]
  have hev : exponentValue (some (decide (dp - 1 < 0), ys)) - (r.length : Int) =
      -((((c :: r).length : Nat) : Int) - dp) := by
    simp only [exponentValue, hyv, hx3, List.length_cons, decide_eq_true_eq]
    split
    · have : (((dp - 1).natAbs : Nat) : Int) = -(dp - 1) := by omega
      rw [this]; push_cast; ring
    · have : (((dp - 1).natAbs : Nat) : Int) = dp - 1 := by omega
      rw [this]; push_cast; ring
  rw [hev]
  simp only [List.singleton_append, hval]

theorem zero_reads (neg : Bool) :
    ParseFloat (fmtF neg [] 0) = some (Float64.pack neg 0 0) ∧
    scanNumber (fmtF neg [] 0) = some (fmtF neg [] 0, []) := by
  cases neg <;> exact ⟨by decide, by decide⟩

theorem decimalToFloat64_zero (neg : Bool) (s : Int) :
    decimalToFloat64 neg 0 s = some (Float64.pack neg 0 0) := by
  unfold decimalToFloat64
  split <;> simp [roundToFloat64]

/-- What `encoding/json` writes for a finite float64 is a JSON number literal
that `strconv.ParseFloat` converts back to the same float64. -/
theorem floatRoundTrips_of_finite (f : Float64) (hfin : f.IsFinite) :
    floatRoundTrips f = true := by
  have key : ParseFloat (encodeFloat f) = some f ∧
      scanNumber (encodeFloat f) = some (encodeFloat f, []) := by
    unfold encodeFloat
    simp only []
    by_cases h0 : f.bits.val % 2 ^ 63 = 0
    · simp only [h0, if_true]
      obtain ⟨z1, z2⟩ := zero_reads f.neg
      refine ⟨?_, z2⟩
      rw [z1]
      congr 1
      have hp := pack_fields f
      have e1 : f.expField = 0 := by
        unfold Float64.expField; omega
      have e2 : f.frac = 0 := by
        unfold Float64.frac; omega
      rw [e1, e2] at hp
      exact hp
    · simp only [h0, if_false]
      unfold shortestDecimal
      simp only []
      generalize ht : shortestFrom f
        (if 0 ≤ f.exp2 then f.mant * 2 ^ f.exp2.toNat else f.mant)
        (if 0 ≤ f.exp2 then 1 else 2 ^ (-f.exp2).toNat)
        (floorLog10 (if 0 ≤ f.exp2 then f.mant * 2 ^ f.exp2.toNat else f.mant)
          (if 0 ≤ f.exp2 then 1 else 2 ^ (-f.exp2).toNat)) 17 1 = t
      have hconv := shortestFrom_converts f hfin
        (if 0 ≤ f.exp2 then f.mant * 2 ^ f.exp2.toNat else f.mant)
        (if 0 ≤ f.exp2 then 1 else 2 ^ (-f.exp2).toNat)
        (floorLog10 (if 0 ≤ f.exp2 then f.mant * 2 ^ f.exp2.toNat else f.mant)
          (if 0 ≤ f.exp2 then 1 else 2 ^ (-f.exp2).toNat)) 17 1
      rw [ht] at hconv
      have hpos : 0 < t.1 := by
        rcases Nat.eq_zero_or_pos t.1 with h | h
        · rw [h, decimalToFloat64_zero] at hconv
          have hb : f.bits.val % 2 ^ 63 = 0 := by
            have := Option.some.inj hconv
            rw [← this]
            simp only [Float64.pack, Fin.ofNat]
            split <;> simp
          exact absurd hb h0
        · exact h
      have hs : ((natDigits t.1).length : Int) - (((natDigits t.1).length : Int) - t.2) = t.2 := by
        ring
      split
      · obtain ⟨a, b⟩ := fmtE_reads f.neg t.1 hpos (((natDigits t.1).length : Int) - t.2)
        rw [hs] at a
        exact ⟨a.trans hconv, b⟩
      · obtain ⟨a, b⟩ := fmtF_reads f.neg t.1 hpos (((natDigits t.1).length : Int) - t.2)
        rw [hs] at a
        exact ⟨a.trans hconv, b⟩
  simp only [floatRoundTrips, Bool.and_eq_true, decide_eq_true_eq]
  exact ⟨key.2, key.1⟩

/-! ## Round trip (C9): string literals -/

theorem hexValue_hexChar (n : Nat) (h : n < 16) : hexValue (hexChar n) = some n := by
  interval_cases n <;> decide

theorem pushChar_flush (c : Char) (r : Option (List Char × List Char)) :
    flushSurrogate none (pushChar c r) = pushChar c r := rfl

theorem unquoteFrom_escapeChar (c : Char) (rest : List Char) :
    unquoteFrom none (escapeChar c ++ rest) = pushChar c (unquoteFrom none rest) := by
  unfold escapeChar
  by_cases h1 : c = '"' ∨ c = '\\'
  · rw [if_pos h1]
    rcases h1 with rfl | rfl
    · rw [unquoteFrom.eq_def]; simp [simpleEscape, flushSurrogate]
    · rw [unquoteFrom.eq_def]; simp [simpleEscape, flushSurrogate]
  rw [if_neg h1]
  have hq : c ≠ '"' := fun h => h1 (Or.inl h)
  have hb : c ≠ '\\' := fun h => h1 (Or.inr h)
  by_cases h2 : c.toNat = 8
  · rw [if_pos h2]
    have : c = Char.ofNat 8 := by rw [← h2, Char.ofNat_toNat]
    subst this
    rw [unquoteFrom.eq_def]; simp [simpleEscape, flushSurrogate]
  rw [if_neg h2]
  by_cases h3 : c.toNat = 12
  · rw [if_pos h3]
    have : c = Char.ofNat 12 := by rw [← h3, Char.ofNat_toNat]
    subst this
    rw [unquoteFrom.eq_def]; simp [simpleEscape, flushSurrogate]
  rw [if_neg h3]
  by_cases h4 : c.toNat = 10
  · rw [if_pos h4]
    have : c = Char.ofNat 10 := by rw [← h4, Char.ofNat_toNat]
    subst this
    rw [unquoteFrom.eq_def]; simp [simpleEscape, flushSurrogate]
  rw [if_neg h4]
  by_cases h5 : c.toNat = 13
  · rw [if_pos h5]
    have : c = Char.ofNat 13 := by rw [← h5, Char.ofNat_toNat]
    subst this
    rw [unquoteFrom.eq_def]; simp [simpleEscape, flushSurrogate]
  rw [if_neg h5]
  by_cases h6 : c.toNat = 9
  · rw [if_pos h6]
    have : c = Char.ofNat 9 := by rw [← h6, Char.ofNat_toNat]
    subst this
    rw [unquoteFrom.eq_def]; simp [simpleEscape, flushSurrogate]
  rw [if_neg h6]
  by_cases h7 : c.toNat < 32 ∨ c = '<' ∨ c = '>' ∨ c = '&'
  · rw [if_pos h7]
    have hlt : c.toNat < 128 := by
      rcases h7 with h | rfl | rfl | rfl
      · omega
      · decide
      · decide
      · decide
    have hu : getu4 '0' '0' (hexChar (c.toNat / 16)) (hexChar (c.toNat % 16)) = some c.toNat := by
      unfold getu4
      rw [hexValue_hexChar _ (by omega), hexValue_hexChar _ (by omega)]
      have h0 : hexValue '0' = some 0 := by decide
      rw [h0]
      simp only [Option.some.injEq]
      omega
    have hs : isSurrogate c.toNat = false := by
      simp only [isSurrogate, decide_eq_false_iff_not]; omega
    rw [unquoteFrom.eq_def]; simp [hu, hs, Char.ofNat_toNat]
  rw [if_neg h7]
  have h32 : ¬ c.toNat < 32 := fun h => h7 (Or.inl h)
  by_cases h8 : c.toNat = 8232 ∨ c.toNat = 8233
  · rw [if_pos h8]
    have hu : getu4 '2' '0' '2' (hexChar (c.toNat % 16)) = some c.toNat := by
      unfold getu4
      rw [hexValue_hexChar _ (by omega)]
      have h0 : hexValue '0' = some 0 := by decide
      have h2 : hexValue '2' = some 2 := by decide
      rw [h0, h2]
      simp only [Option.some.injEq]
      omega
    have hs : isSurrogate c.toNat = false := by
      simp only [isSurrogate, decide_eq_false_iff_not]; omega
    rw [unquoteFrom.eq_def]; simp [hu, hs, Char.ofNat_toNat]
  rw [if_neg h8]
  rw [unquoteFrom.eq_def]; simp [hq, hb, h32, flushSurrogate]

/-- Reading back an escaped string gives the string. -/
theorem unquote_escapeString (s rest : List Char) :
    unquote (escapeString s ++ '"' :: rest) = some (s, rest) := by
  unfold unquote
  induction s with
  | nil => rw [unquoteFrom.eq_def]; simp [escapeString, flushSurrogate]
  | cons c s ih =>
    simp only [escapeString, List.append_assoc]
    rw [unquoteFrom_escapeChar, ih]
    rfl

/-! ## Round trip (C9): number literals and members -/

theorem takeDigits_append (c : Char) (tail : List Char) (hc : isDigit c = false) :
    ∀ l : List Char, takeDigits (l ++ c :: tail) =
      ((takeDigits l).1, (takeDigits l).2 ++ c :: tail) := by
  intro l
  induction l with
  | nil => simp [takeDigits, hc]
  | cons x l ih =>
    simp only [List.cons_append, takeDigits]
    by_cases hx : isDigit x = true
    · simp [hx, ih]
    · simp [hx]

theorem scanExponent_append (c : Char) (tail : List Char) (hc : isDelimiter c)
    (acc l lit rest : List Char) (h : scanExponent acc l = some (lit, rest)) :
    scanExponent acc (l ++ c :: tail) = some (lit, rest ++ c :: tail) := by
  have hd : isDigit c = false := by rcases hc with rfl | rfl <;> decide
  have he : ¬ (c = 'e' ∨ c = 'E') := by rcases hc with rfl | rfl <;> decide
  cases l with
  | nil =>
    simp only [scanExponent, Option.some.injEq, Prod.mk.injEq] at h
    simp [scanExponent, he, h.1.symm, h.2.symm]
  | cons e r =>
    simp only [List.cons_append, scanExponent] at h ⊢
    by_cases hee : e = 'e' ∨ e = 'E'
    · simp only [hee, if_true] at h ⊢
      cases r with
      | nil => simp [takeDigits] at h
      | cons x r1 =>
        simp only [List.cons_append] at h ⊢
        by_cases hx : x = '+' ∨ x = '-'
        · simp only [hx, if_true] at h ⊢
          rw [takeDigits_append c tail hd]
          by_cases hds : (takeDigits r1).1 = []
          · simp [hds] at h
          · simp only [hds, if_false, Option.some.injEq, Prod.mk.injEq] at h ⊢
            exact ⟨h.1, by rw [h.2]⟩
        · simp only [hx, if_false] at h ⊢
          have := takeDigits_append c tail hd (x :: r1)
          simp only [List.cons_append] at this
          rw [this]
          by_cases hds : (takeDigits (x :: r1)).1 = []
          · simp [hds] at h
          · simp only [hds, if_false, Option.some.injEq, Prod.mk.injEq] at h ⊢
            exact ⟨h.1, by rw [h.2]⟩
    · simp only [hee, if_false, Option.some.injEq, Prod.mk.injEq] at h ⊢
      exact ⟨h.1, by rw [← h.2]; rfl⟩

theorem scanFraction_append (c : Char) (tail : List Char) (hc : isDelimiter c)
    (acc l lit rest : List Char) (h : scanFraction acc l = some (lit, rest)) :
    scanFraction acc (l ++ c :: tail) = some (lit, rest ++ c :: tail) := by
  have hd : isDigit c = false := by rcases hc with rfl | rfl <;> decide
  have hp : c ≠ '.' := by rcases hc with rfl | rfl <;> decide
  cases l with
  | nil =>
    simp only [scanFraction, Option.some.injEq, Prod.mk.injEq] at h
    simp only [List.nil_append, scanFraction, hp, if_false]
    have := scanExponent_append c tail hc acc [] lit rest (by simp [scanExponent, h.1, h.2])
    simpa using this
  | cons x r =>
    simp only [List.cons_append, scanFraction] at h ⊢
    by_cases hx : x = '.'
    · simp only [hx, if_true] at h ⊢
      rw [takeDigits_append c tail hd]
      by_cases hds : (takeDigits r).1 = []
      · simp [hds] at h
      · simp only [hds, if_false] at h ⊢
        exact scanExponent_append c tail hc _ _ lit rest h
    · simp only [hx, if_false] at h ⊢
      exact scanExponent_append c tail hc _ (x :: r) lit rest h

theorem scanInteger_append (c : Char) (tail : List Char) (hc : isDelimiter c)
    (acc l lit rest : List Char) (h : scanInteger acc l = some (lit, rest)) :
    scanInteger acc (l ++ c :: tail) = some (lit, rest ++ c :: tail) := by
  have hd : isDigit c = false := by rcases hc with rfl | rfl <;> decide
  cases l with
  | nil => simp [scanInteger] at h
  | cons x r =>
    simp only [List.cons_append, scanInteger] at h ⊢
    by_cases hx : x = '0'
    · simp only [hx, if_true] at h ⊢
      exact scanFraction_append c tail hc _ _ lit rest h
    · simp only [hx, if_false] at h ⊢
      by_cases hr : 49 ≤ x.toNat ∧ x.toNat ≤ 57
      · simp only [hr, and_self, if_true] at h ⊢
        rw [takeDigits_append c tail hd]
        exact scanFraction_append c tail hc _ _ lit rest h
      · simp [hr] at h

/-- A number literal is scanned the same way when a delimiter follows it. -/
theorem scanNumber_append (c : Char) (tail : List Char) (hc : isDelimiter c)
    (l lit rest : List Char) (h : scanNumber l = some (lit, rest)) :
    scanNumber (l ++ c :: tail) = some (lit, rest ++ c :: tail) := by
  cases l with
  | nil => simp [scanNumber] at h
  | cons x r =>
    simp only [List.cons_append, scanNumber] at h ⊢
    by_cases hx : x = '-'
    · simp only [hx, if_true] at h ⊢
      exact scanInteger_append c tail hc _ _ lit rest h
    · simp only [hx, if_false] at h ⊢
      exact scanInteger_append c tail hc _ (x :: r) lit rest h

theorem skipSpace_cons (c : Char) (cs : List Char) (h : isSpace c = false) :
    skipSpace (c :: cs) = c :: cs := by
  simp [skipSpace, h]

theorem parseValue_true (fuel depth : Nat) (tail : List Char) :
    parseValue (fuel + 1) depth ('t' :: 'r' :: 'u' :: 'e' :: tail) =
      Scan.ok (JSON.bool true, tail) := by
  rw [parseValue.eq_def]
  simp [skipSpace, isSpace]

theorem parseValue_false (fuel depth : Nat) (tail : List Char) :
    parseValue (fuel + 1) depth ('f' :: 'a' :: 'l' :: 's' :: 'e' :: tail) =
      Scan.ok (JSON.bool false, tail) := by
  rw [parseValue.eq_def]
  simp [skipSpace, isSpace]

theorem parseValue_quote (fuel depth : Nat) (x : String) (tail : List Char) :
    parseValue (fuel + 1) depth (quote x ++ tail) = Scan.ok (JSON.string x, tail) := by
  rw [parseValue.eq_def]
  have hs : skipSpace (quote x ++ tail) = '"' :: (escapeString x.data ++ '"' :: tail) := by
    simp [quote, skipSpace, isSpace]
  simp only [hs]
  simp [unquote_escapeString]

theorem parseValue_number (fuel depth : Nat) (lit : List Char) (c : Char) (tail : List Char)
    (hc : isDelimiter c) (hchars : ∀ x ∈ lit, isNumberChar x = true)
    (hscan : scanNumber lit = some (lit, [])) :
    parseValue (fuel + 1) depth (lit ++ c :: tail) = Scan.ok (JSON.number ⟨lit⟩, c :: tail) := by
  cases lit with
  | nil => simp [scanNumber] at hscan
  | cons x r =>
    have hx := hchars x (List.mem_cons_self _ _)
    have hsc := scanNumber_append c tail hc (x :: r) (x :: r) [] hscan
    simp only [List.cons_append, List.nil_append] at hsc
    have hsp : isSpace x = false := by
      by_contra hcon
      simp only [Bool.not_eq_false, isSpace, Bool.or_eq_true, decide_eq_true_eq] at hcon
      rcases hcon with ((rfl | rfl) | rfl) | rfl <;> exact absurd hx (by decide)
    have h1 : x ≠ '{' := by rintro rfl; exact absurd hx (by decide)
    have h2 : x ≠ '[' := by rintro rfl; exact absurd hx (by decide)
    have h3 : x ≠ '"' := by rintro rfl; exact absurd hx (by decide)
    have h4 : x ≠ 't' := by rintro rfl; exact absurd hx (by decide)
    have h5 : x ≠ 'f' := by rintro rfl; exact absurd hx (by decide)
    have h6 : x ≠ 'n' := by rintro rfl; exact absurd hx (by decide)
    rw [parseValue.eq_def]
    simp only [List.cons_append, skipSpace_cons x _ hsp]
    simp [h1, h2, h3, h4, h5, h6, hsc]

/-- Reading back the text written for a value, followed by a delimiter. -/
theorem parseValue_encode (fuel depth : Nat) (v : Value) (c : Char) (tail : List Char)
    (hc : isDelimiter c)
    (hv : ∀ x, v = Value.float64 x → scanNumber (encodeFloat x) = some (encodeFloat x, [])) :
    parseValue (fuel + 1) depth (v.encode ++ c :: tail) = Scan.ok (v.toJSON, c :: tail) := by
  cases v with
  | bool b =>
    cases b
    · exact parseValue_false fuel depth (c :: tail)
    · exact parseValue_true fuel depth (c :: tail)
  | string x => exact parseValue_quote fuel depth x (c :: tail)
  | float64 x =>
    exact parseValue_number fuel depth (encodeFloat x) c tail hc (encodeFloat_chars x) (hv x rfl)

theorem parseMembers_head (fuel depth : Nat) (k : String) (text : List Char) :
    parseMembers (fuel + 1) depth (quote k ++ ':' :: text) =
      match parseValue fuel depth text with
      | Scan.ok (v, r3) =>
        match skipSpace r3 with
        | ',' :: r4 =>
          match parseMembers fuel depth r4 with
          | Scan.ok (ms, r5) => Scan.ok ((k, v) :: ms, r5)
          | Scan.invalid => Scan.invalid
          | Scan.outOfFuel => Scan.outOfFuel
        | '}' :: r4 => Scan.ok ([(k, v)], r4)
        | _ => Scan.invalid
      | Scan.invalid => Scan.invalid
      | Scan.outOfFuel => Scan.outOfFuel := by
  rw [parseMembers.eq_def]
  have hs : skipSpace (quote k ++ ':' :: text) =
      '"' :: (escapeString k.data ++ '"' :: ':' :: text) := by
    simp [quote, skipSpace, isSpace]
  simp only [hs, unquote_escapeString]
  have hs2 : skipSpace (':' :: text) = ':' :: text := by simp [skipSpace, isSpace]
  simp only [hs2]

theorem parseMembers_encode (depth : Nat) (rest : List Char) :
    ∀ (ms : List (String × Value)) (fuel : Nat), ms ≠ [] → ms.length < fuel → NumbersScan ms →
      parseMembers fuel depth
        (encodeMembers (ms.map (fun kv => (kv.1, kv.2.encode))) ++ '}' :: rest) =
      Scan.ok (ms.map (fun kv => (kv.1, kv.2.toJSON)), rest) := by
  intro ms
  induction ms with
  | nil => intro fuel h; exact absurd rfl h
  | cons kv ms ih =>
    intro fuel _ hlen hnum
    obtain ⟨k, v⟩ := kv
    have hv : ∀ x, v = Value.float64 x → scanNumber (encodeFloat x) = some (encodeFloat x, []) :=
      fun x hx => hnum (k, v) (List.mem_cons_self _ _) x hx
    cases fuel with
    | zero => simp at hlen
    | succ fuel =>
      cases fuel with
      | zero => simp at hlen
      | succ fuel =>
        cases ms with
        | nil =>
          simp only [List.map_cons, List.map_nil, encodeMembers, List.append_assoc,
            List.cons_append]
          rw [parseMembers_head]
          rw [parseValue_encode fuel depth v '}' rest (Or.inr rfl) hv]
          simp [skipSpace, isSpace]
        | cons m ms =>
          have hrec := ih (fuel + 1) (by simp) (by simp at hlen ⊢; omega)
            (fun kv hkv => hnum kv (List.mem_cons_of_mem _ hkv))
          simp only [List.map_cons, encodeMembers, List.append_assoc, List.cons_append] at hrec ⊢
          rw [parseMembers_head]
          rw [parseValue_encode fuel depth v ',' _ (Or.inl rfl) hv]
          simp only [skipSpace, isSpace]
          simp [hrec]

theorem encodeMembers_length (ms : List (String × List Char)) :
    ms.length ≤ (encodeMembers ms).length := by
  induction ms with
  | nil => simp
  | cons kv ms ih =>
    obtain ⟨k, v⟩ := kv
    cases ms with
    | nil => simp [encodeMembers, quote]
    | cons m ms =>
      simp only [encodeMembers, List.length_append, List.length_cons] at ih ⊢
      omega

/-- Reading back the object written for a non-empty list of members. -/
theorem parseJSON_encodeObject (ms : List (String × Value)) (hne : ms ≠ [])
    (hnum : NumbersScan ms) :
    parseJSON (encodeObject (ms.map (fun kv => (kv.1, kv.2.encode)))) =
      some (JSON.object (ms.map (fun kv => (kv.1, kv.2.toJSON)))) := by
  unfold parseJSON encodeObject
  simp only [List.length_cons, List.length_append, List.length_singleton]
  rw [parseValue.eq_def]
  have hlen := encodeMembers_length (ms.map (fun kv => (kv.1, kv.2.encode)))
  simp only [List.length_map] at hlen
  have hpm := parseMembers_encode 1 [] ms
    (2 * ((encodeMembers (ms.map (fun kv => (kv.1, kv.2.encode)))).length + 1 + 1) + 1)
    hne (by omega) hnum
  obtain ⟨kv, ms1, rfl⟩ := List.exists_cons_of_ne_nil hne
  obtain ⟨k, v⟩ := kv
  have hq : ∀ t : List Char, skipSpace (encodeMembers ((k, v.encode) ::
      ms1.map (fun kv => (kv.1, kv.2.encode))) ++ t) =
      encodeMembers ((k, v.encode) :: ms1.map (fun kv => (kv.1, kv.2.encode))) ++ t ∧
      ∃ t1, encodeMembers ((k, v.encode) :: ms1.map (fun kv => (kv.1, kv.2.encode))) ++ t =
        '"' :: t1 := by
    intro t
    cases ms1 <;> simp [encodeMembers, quote, skipSpace, isSpace]
  obtain ⟨hs1, t1, ht1⟩ := hq ['}']
  simp only [List.map_cons] at hpm ⊢
  simp only [skipSpace, isSpace, hs1]
  rw [ht1] at hpm ⊢
  have hsq : isSpace '"' = false := by decide
  simp [maxNestingDepth, hpm, skipSpace, hsq]

/-! ## Serialization (C8): the payload read as JSON -/

theorem requestMembers_eq (r : PaymentRequestRequest) :
    requestMembers r = (requestValues r).map (fun kv => (kv.1, kv.2.encode)) := by
  unfold requestMembers requestValues
  split_ifs <;> rfl

theorem toJSON_not_null (v : Value) : v.toJSON.isNull = false := by
  cases v <;> rfl

/-- C8. The payload `CreatePaymentRequest` serializes for a request and hands to
the transport is a JSON object: read as JSON it has the members written by
`encoding/json`, whose keys always include `amount`, `currency` and `title`,
include each optional key (`allowCustomPaymentAmounts`, `customCSSLink`,
`description`, `email`, `embeddedCSS`, `expiryDate`) exactly when its field is
populated (true for the flag, non-empty for the strings), are keys of the
request and none of whose values is `null`. -/
theorem C8_payload_members (store : Store) (r : PaymentRequestRequest) (payload : String)
    (h : Marshal (some r) = Except.ok payload) :
    (store.CreatePaymentRequest (some r)).calls =
      [⟨"POST", "payment-requests", some payload⟩] ∧
    ∃ ms : List (String × JSON),
      parseJSON payload = some (JSON.object ms) ∧
      (∀ kv ∈ ms, kv.2.isNull = false) ∧
      "amount" ∈ ms.map Prod.fst ∧
      "currency" ∈ ms.map Prod.fst ∧
      "title" ∈ ms.map Prod.fst ∧
      ("allowCustomPaymentAmounts" ∈ ms.map Prod.fst ↔ r.AllowCustomPaymentAmounts = true) ∧
      ("customCSSLink" ∈ ms.map Prod.fst ↔ r.CustomCSSLink ≠ "") ∧
      ("description" ∈ ms.map Prod.fst ↔ r.Description ≠ "") ∧
      ("email" ∈ ms.map Prod.fst ↔ r.Email ≠ "") ∧
      ("embeddedCSS" ∈ ms.map Prod.fst ↔ r.EmbeddedCSS ≠ "") ∧
      ("expiryDate" ∈ ms.map Prod.fst ↔ r.ExpiryDate ≠ "") ∧
      (∀ k ∈ ms.map Prod.fst, k ∈ requestFields.map Field.name) := by
  have hfin : r.Amount.IsFinite ∧ payload = encodeObject (requestMembers r) := by
    unfold Marshal at h
    simp only [] at h
    split at h
    · exact absurd h (by simp)
    · rename_i hc
      refine ⟨?_, by simpa using h.symm⟩
      intro he
      apply hc
      simp only [Float64.IsNaN, Float64.IsInf, he, beq_self_eq_true, Bool.true_and]
      by_cases hz : r.Amount.frac = 0
      · right; simp [hz]
      · left; simp [hz]
  obtain ⟨hfin, hp⟩ := hfin
  have hcalls : (store.CreatePaymentRequest (some r)).calls =
      [⟨"POST", "payment-requests", some payload⟩] := by
    unfold Store.CreatePaymentRequest
    rw [h]
    simp only []
    split
    · rfl
    · split
      · rfl
      · repeat' split
        all_goals rfl
  have hrt := floatRoundTrips_of_finite r.Amount hfin
  simp only [floatRoundTrips, Bool.and_eq_true, decide_eq_true_eq] at hrt
  have hne : requestValues r ≠ [] := by
    intro hcon
    have : ("amount", Value.float64 r.Amount) ∈ requestValues r := by
      simp [requestValues]
    rw [hcon] at this
    exact absurd this (by simp)
  have hnum : NumbersScan (requestValues r) := by
    intro kv hkv x hx
    have : x = r.Amount := by
      simp only [requestValues, List.mem_append, List.mem_cons, List.mem_singleton,
        List.not_mem_nil, or_false] at hkv
      rcases hkv with ((((((hkv | hkv | hkv) | hkv) | hkv) | hkv) | hkv) | hkv) | hkv
      · split at hkv
        · simp at hkv; subst hkv; simp at hx
        · simp at hkv
      · subst hkv; simp at hx; exact hx.symm
      · subst hkv; simp at hx
      all_goals first
        | (subst hkv; simp at hx)
        | (split at hkv
           · simp at hkv
           · simp at hkv; subst hkv; simp at hx)
    rw [this]; exact hrt.1
  have hparse := parseJSON_encodeObject (requestValues r) hne hnum
  rw [← requestMembers_eq, ← hp] at hparse
  have hkeys : ((requestValues r).map (fun kv => (kv.1, kv.2.toJSON))).map Prod.fst =
      (requestMembers r).map Prod.fst := by
    rw [requestMembers_eq]
    simp [List.map_map, Function.comp]
  have hk := requestMembers_keys r
  refine ⟨hcalls, _, hparse, ?_, ?_⟩
  · intro kv hkv
    obtain ⟨x, _, rfl⟩ := List.mem_map.1 hkv
    exact toJSON_not_null x.2
  · rw [hkeys, hk]
    simp [mem_optional, mem_flag, requestFields, Field.name]
    intro k hk1
    rcases hk1 with h | h | h | h | h | h | h | h | h
    all_goals simp [h]

/-- C8 at a concrete input: the request with amount 10.5, currency USD and
title `Invoice 1` is serialized with exactly the three mandatory keys. -/
theorem C8_payload_members_witness :
    Marshal (some sampleRequest) =
      Except.ok "\x7b\"amount\":10.5,\"currency\":\"USD\",\"title\":\"Invoice 1\"\x7d" ∧
    ((stubStore 200 sampleBody).CreatePaymentRequest (some sampleRequest)).calls =
      [⟨"POST", "payment-requests",
        some "\x7b\"amount\":10.5,\"currency\":\"USD\",\"title\":\"Invoice 1\"\x7d"⟩] :=
  ⟨by decide!,
    (C8_payload_members (stubStore 200 sampleBody) sampleRequest
      "\x7b\"amount\":10.5,\"currency\":\"USD\",\"title\":\"Invoice 1\"\x7d"
      (by decide!)).1⟩

/-! ## Round trip (C9): the payment request -/

theorem findField_name (f : Field) : findField f.name = some f := by
  cases f <;> decide

theorem get_float64 (p : PaymentRequest) (f : Field) (x : Float64)
    (h : p.get f = Value.float64 x) : x = p.Amount := by
  cases f <;> simp [PaymentRequest.get] at h
  exact h.symm

theorem paymentRequestMembers_eq (p : PaymentRequest) :
    paymentRequestMembers p =
      ((writtenFields p).map (fun f => (f.name, p.get f))).map
        (fun kv => (kv.1, kv.2.encode)) := by
  simp only [paymentRequestMembers, requestMembers, writtenFields, allFields, requestFields,
    List.cons_append, List.nil_append, List.filter_cons, List.filter_nil, Field.omitEmpty,
    Value.isEmpty, PaymentRequest.get, Bool.true_and, Bool.false_and, Bool.not_false, if_true,
    Bool.not_not]
  cases p.AllowCustomPaymentAmounts <;>
  by_cases h2 : p.CustomCSSLink = "" <;>
  by_cases h3 : p.Description = "" <;>
  by_cases h4 : p.Email = "" <;>
  by_cases h5 : p.EmbeddedCSS = "" <;>
  by_cases h6 : p.ExpiryDate = "" <;>
  simp [h2, h3, h4, h5, h6, Field.name, Value.encode, PaymentRequest.get, encodeBool]

theorem lookupField_map (F : Field → JSON) (g : Field) (fs : List Field) :
    lookupField g (fs.map (fun f => (f.name, F f))) = if g ∈ fs then some (F g) else none := by
  induction fs with
  | nil => simp [lookupField]
  | cons f fs ih =>
    simp only [List.map_cons, lookupField, ih, findField_name]
    by_cases hg : g ∈ fs
    · simp [hg]
    · by_cases hfg : f = g
      · subst hfg; simp [hg]
      · have : ¬ g = f := fun h => hfg h.symm
        simp [hg, hfg, this]

theorem valueOf_toJSON (p : PaymentRequest) (g : Field)
    (hf : ParseFloat (encodeFloat p.Amount) = some p.Amount) :
    valueOf (p.get g).toJSON = some (p.get g) := by
  cases g <;> simp [PaymentRequest.get, Value.toJSON, valueOf, hf]

theorem typeMatches_toJSON (p : PaymentRequest) (g : Field)
    (hf : ParseFloat (encodeFloat p.Amount) = some p.Amount) :
    typeMatches g.kind (p.get g).toJSON = true := by
  cases g <;> simp [PaymentRequest.get, Value.toJSON, typeMatches, Field.kind, hf]

theorem not_written_zero (p : PaymentRequest) (g : Field) (h : g ∉ writtenFields p) :
    p.get g = PaymentRequest.zero.get g := by
  simp only [writtenFields, List.mem_filter, not_and, Bool.not_eq_true, Bool.not_eq_false',
    Bool.and_eq_true] at h
  have hg : g ∈ allFields := by cases g <;> decide
  have := h hg
  cases g <;> simp [Field.omitEmpty, PaymentRequest.get, Value.isEmpty] at this <;>
    simp [PaymentRequest.get, PaymentRequest.zero, PaymentRequestRequest.zero, this]

/-- Decoding the object written for a payment request gives it back. -/
theorem Unmarshal_encodeObject (p : PaymentRequest)
    (hscan : scanNumber (encodeFloat p.Amount) = some (encodeFloat p.Amount, []))
    (hf : ParseFloat (encodeFloat p.Amount) = some p.Amount) :
    Unmarshal (encodeObject (paymentRequestMembers p)) PaymentRequest.zero = (p, none) := by
  have hne : (writtenFields p).map (fun f => (f.name, p.get f)) ≠ [] := by
    have : Field.Amount ∈ writtenFields p := by
      simp [writtenFields, allFields, requestFields, Field.omitEmpty]
    intro h
    rw [List.map_eq_nil_iff] at h
    rw [h] at this
    exact absurd this (by simp)
  have hnum : NumbersScan ((writtenFields p).map (fun f => (f.name, p.get f))) := by
    intro kv hkv x hx
    obtain ⟨f, _, rfl⟩ := List.mem_map.1 hkv
    rw [get_float64 p f x hx]
    exact hscan
  have hparse := parseJSON_encodeObject _ hne hnum
  rw [← paymentRequestMembers_eq] at hparse
  simp only [List.map_map] at hparse
  have hms : (fun kv : String × Value => (kv.1, kv.2.toJSON)) ∘ (fun f => (f.name, p.get f)) =
      fun f : Field => (f.name, (p.get f).toJSON) := rfl
  rw [hms] at hparse
  unfold Unmarshal
  rw [hparse]
  simp only []
  have hw : wellShaped ((writtenFields p).map (fun f => (f.name, (p.get f).toJSON))) = true := by
    unfold wellShaped
    rw [List.all_eq_true]
    intro kv hkv
    obtain ⟨f, _, rfl⟩ := List.mem_map.1 hkv
    simp only [findField_name]
    exact typeMatches_toJSON p f hf
  apply Prod.ext
  · apply get_ext
    intro g
    rw [decodeMembers_get _ _ _ g hw, lookupField_map (fun f => (p.get f).toJSON)]
    by_cases hg : g ∈ writtenFields p
    · simp [hg, valueOf_toJSON p g hf]
    · simp [hg, not_written_zero p g hg]
  · exact (decodeMembers_err_eq_none _ _ _).2 ⟨rfl, wellShaped_membersAccepted _ hw⟩

/-- C9 as stated fails: a `PaymentRequest` whose amount is NaN has no JSON
serialization (`json.Marshal` returns an `UnsupportedValueError`), so there is
nothing to deserialize. -/
theorem C9_counterexample :
    MarshalPaymentRequest nanPaymentRequest =
      Except.error (Error.UnsupportedValueError "NaN") ∧
    ¬ ∃ s, MarshalPaymentRequest nanPaymentRequest = Except.ok s ∧
      Unmarshal s PaymentRequest.zero = (nanPaymentRequest, none) := by
  have h : MarshalPaymentRequest nanPaymentRequest =
      Except.error (Error.UnsupportedValueError "NaN") := by decide!
  refine ⟨h, ?_⟩
  rintro ⟨s, hs, _⟩
  rw [h] at hs
  exact absurd hs (by simp)

/-- C9, amended. For every `PaymentRequest` `p` whose amount is finite (neither
NaN nor infinite), strings being well-formed UTF-8, `json.Marshal` succeeds and
deserializing its output into a fresh `PaymentRequest` succeeds and yields a
value equal to `p` in every field, also when optional fields are at their zero
value and therefore omitted. -/
theorem C9_round_trip (p : PaymentRequest) (hnan : p.Amount.IsNaN = false)
    (hinf : p.Amount.IsInf = false) :
    ∃ s, MarshalPaymentRequest p = Except.ok s ∧
      Unmarshal s PaymentRequest.zero = (p, none) := by
  have hfin : p.Amount.IsFinite := by
    intro h
    simp only [Float64.IsNaN, Float64.IsInf, h, beq_self_eq_true, Bool.true_and] at hnan hinf
    by_cases hz : p.Amount.frac = 0
    · simp [hz] at hinf
    · simp [hz] at hnan
  have hrt := floatRoundTrips_of_finite p.Amount hfin
  simp only [floatRoundTrips, Bool.and_eq_true, decide_eq_true_eq] at hrt
  refine ⟨encodeObject (paymentRequestMembers p), ?_, Unmarshal_encodeObject p hrt.1 hrt.2⟩
  simp [MarshalPaymentRequest, hnan, hinf]

/-- C9, amended, at concrete inputs: the example payment request, whose
optional fields are all omitted, and one with every field populated. -/
theorem C9_round_trip_witness :
    (∃ s, MarshalPaymentRequest samplePaymentRequest = Except.ok s ∧
      Unmarshal s PaymentRequest.zero = (samplePaymentRequest, none)) ∧
    (∃ s, MarshalPaymentRequest fullPaymentRequest = Except.ok s ∧
      Unmarshal s PaymentRequest.zero = (fullPaymentRequest, none)) :=
  ⟨C9_round_trip samplePaymentRequest (by decide!) (by decide!),
    C9_round_trip fullPaymentRequest (by decide!) (by decide!)⟩

/-! ## Expiry date (C10) -/

theorem IsWs.isSpace {w : List Char} (hw : IsWs w) : ∀ c ∈ w, isSpace c = true := by
  intro c hc
  rcases hw c hc with rfl | rfl | rfl | rfl <;> decide

theorem IsWs.tail {c : Char} {w : List Char} (hw : IsWs (c :: w)) : IsWs w :=
  fun x hx => hw x (List.mem_cons_of_mem _ hx)

theorem HexDigit.hexValue {c : Char} {n : Nat} (h : HexDigit c n) : hexValue c = some n := by
  simp only [HexDigit, List.mem_cons, Prod.mk.injEq, List.mem_singleton, List.not_mem_nil,
    or_false] at h
  rcases h with h | h | h | h | h | h | h | h | h | h | h | h | h | h | h | h | h | h | h | h |
    h | h <;> obtain ⟨rfl, rfl⟩ := h <;> decide

theorem Hex4.getu4 {a b c d : Char} {n : Nat} (h : Hex4 a b c d n) : getu4 a b c d = some n := by
  obtain ⟨x, y, z, w, hx, hy, hz, hw, rfl⟩ := h
  simp only [btcpay.getu4, hx.hexValue, hy.hexValue, hz.hexValue, hw.hexValue, Option.some.injEq]
  ring

theorem Escape.simpleEscape {e ch : Char} (h : Escape e ch) :
    simpleEscape e = some ch ∧ e ≠ 'u' := by
  simp only [Escape, List.mem_cons, Prod.mk.injEq, List.mem_singleton, List.not_mem_nil,
    or_false] at h
  rcases h with h | h | h | h | h | h | h | h <;> obtain ⟨rfl, rfl⟩ := h <;> decide

theorem IsDigits.isDigit {ds : List Char} (h : IsDigits ds) : ∀ c ∈ ds, isDigit c = true := by
  intro c hc
  have := h c hc
  simp only [List.mem_cons, List.mem_singleton, List.not_mem_nil, or_false] at this
  rcases this with rfl | rfl | rfl | rfl | rfl | rfl | rfl | rfl | rfl | rfl <;> decide

end btcpay
